import Mathlib

/-!
Verification of the cap-snowflake CQN-to-SQL translation engine.

This file gives a shallow embedding, in Lean 4, of the query-translation
core of the repository: the identifier normalizer (`src/identifiers.ts`),
the predicate compiler (`src/cqn/filters.ts`), the pagination compiler
(`src/cqn/pagination.ts`), the ORDER BY compiler (`src/cqn/orderby.ts`),
the statement assembler (`src/cqn/toSQL.ts`), the MERGE generator, the
result reshaper (`restructureJoinedResults` in `src/cqn/joins.ts`) and the
temporal decorator (`addTemporalConditions` in `src/temporal.ts`).

JavaScript values that can appear in a query tree are modelled by the
inductive type `Value`; the duck-typed CQN token objects are modelled by
the mutually inductive types `Expr` and `ExprList`.  The mutable `params`
array of the source is threaded explicitly through every translation
function.  JavaScript template interpolation of strings, `toUpperCase`
(on the ASCII range used by SQL), `String.prototype.replace` of quotes,
and array `join` are modelled by executable helper functions.

Theorems about each translation function follow the definitions.
-/

namespace CapSnowflake

/-- Model of a JavaScript value as it can occur in a CQN literal, a record
field, or a flat result row: `null`, `undefined`, a string, a number
(modelled as a rational), a boolean, an object, or an array. -/
inductive Value where
  | vnull : Value
  | vundef : Value
  | vstr : String → Value
  | vnum : Rat → Value
  | vbool : Bool → Value
  | vobj : List (String × Value) → Value
  | varr : List Value → Value

/-- Model of `Array.prototype.join(sep)`. -/
def sjoin (sep : String) : List String → String
  | [] => ""
  | [s] => s
  | s :: rest => s ++ sep ++ sjoin sep rest

/-- ASCII lowercase-to-uppercase character map (code points 97–122 are
shifted down by 32), modelling the effect of JavaScript `toUpperCase` on
the ASCII alphabet used by SQL identifiers and operators. -/
def upperChar (c : Char) : Char :=
  if 97 ≤ c.toNat && c.toNat ≤ 122 then Char.ofNat (c.toNat - 32) else c

/-- Model of JavaScript `toUpperCase` on a whole string. -/
def upperStr (s : String) : String :=
  ⟨s.data.map upperChar⟩

/-- Count the occurrences of a character in a string. -/
def countC (c : Char) (s : String) : Nat :=
  s.data.count c

/-- Reserved words of the target dialect, from `RESERVED_WORDS` in
`src/identifiers.ts`. -/
def RESERVED_WORDS : List String :=
  ["SELECT", "FROM", "WHERE", "INSERT", "UPDATE", "DELETE", "CREATE", "DROP",
   "TABLE", "VIEW", "INDEX", "ALTER", "ADD", "COLUMN", "PRIMARY", "KEY",
   "FOREIGN", "REFERENCES", "CONSTRAINT", "UNIQUE", "NOT", "NULL", "DEFAULT",
   "CHECK", "AND", "OR", "IN", "BETWEEN", "LIKE", "IS", "AS", "ON", "JOIN",
   "LEFT", "RIGHT", "INNER", "OUTER", "FULL", "CROSS", "UNION", "INTERSECT",
   "EXCEPT", "ORDER", "BY", "GROUP", "HAVING", "LIMIT", "OFFSET", "MERGE",
   "INTO", "USING", "WHEN", "MATCHED", "THEN", "VALUES", "SET"]

/-- Whether a string starts and ends with a double quote, modelling the
`identifier.startsWith('"') && identifier.endsWith('"')` test of the
source (true for the one-character string consisting of a quote, as in
JavaScript). -/
def isQuotedId (s : String) : Bool :=
  s.data.head? = some '"' && s.data.getLast? = some '"'

/-- Uppercase letter test used by the identifier pattern. -/
def isUpperAZ (c : Char) : Bool :=
  'A' ≤ c && c ≤ 'Z'

/-- Decimal digit test used by the identifier pattern. -/
def isDigitB (c : Char) : Bool :=
  '0' ≤ c && c ≤ '9'

/-- Model of the regular-expression test `/^[A-Z_][A-Z0-9_]*$/.test(s)`. -/
def validIdPattern (s : String) : Bool :=
  match s.data with
  | [] => false
  | c :: rest => (isUpperAZ c || c = '_') && rest.all (fun d => isUpperAZ d || isDigitB d || d = '_')

/-- Embedding of `needsQuoting` from `src/identifiers.ts`: an identifier
needs quoting unless it is empty or already quoted, when it is a reserved
word, differs from its own uppercased form, or fails the plain-identifier
pattern. -/
def needsQuoting (s : String) : Bool :=
  if s.data = [] then false
  else if isQuotedId s then false
  else if RESERVED_WORDS.contains (upperStr s) then true
  else if s ≠ upperStr s then true
  else if !(validIdPattern s) then true
  else false

/-- Model of `identifier.replace(/"/g, '""')`: double every quote. -/
def escQuotes : List Char → List Char
  | [] => []
  | c :: rest => if c = '"' then '"' :: '"' :: escQuotes rest else c :: escQuotes rest

/-- Embedding of `quoteIdentifier` from `src/identifiers.ts`. -/
def quoteIdentifier (s : String) : String :=
  if s.data = [] then s
  else if isQuotedId s then s
  else if needsQuoting s then ⟨'"' :: (escQuotes s.data ++ ['"'])⟩
  else s

/-- The two credential fields consulted by `qualifyName`. -/
structure SnowflakeCredentials where
  database : Option String
  schema : Option String

/-- JavaScript truthiness of an optional string (absent and empty are
falsy). -/
def optTruthy : Option String → Bool
  | none => false
  | some s => !(s = "")

/-- Split a character list at dots, modelling `name.split('.')`. -/
def splitDotAux : List Char → List Char → List String
  | [], cur => [⟨cur.reverse⟩]
  | c :: rest, cur =>
      if c = '.' then ⟨cur.reverse⟩ :: splitDotAux rest []
      else splitDotAux rest (c :: cur)

/-- Model of `name.split('.')`. -/
def splitDot (s : String) : List String :=
  splitDotAux s.data []

/-- Embedding of `qualifyName` from `src/identifiers.ts` (with the
`includeSchema` parameter explicit; the source defaults it to true). -/
def qualifyName (name : String) (credentials : SnowflakeCredentials) (includeSchema : Bool) : String :=
  match splitDot name with
  | [a, b, c] =>
      sjoin "." ([a, b, c].map quoteIdentifier)
  | [schema, table] =>
      if optTruthy credentials.database && includeSchema then
        quoteIdentifier (credentials.database.getD "") ++ "." ++ quoteIdentifier schema ++ "." ++ quoteIdentifier table
      else
        quoteIdentifier schema ++ "." ++ quoteIdentifier table
  | parts =>
      let table := parts.headD ""
      if optTruthy credentials.database && optTruthy credentials.schema && includeSchema then
        quoteIdentifier (credentials.database.getD "") ++ "." ++ quoteIdentifier (credentials.schema.getD "") ++ "." ++ quoteIdentifier table
      else if optTruthy credentials.schema && includeSchema then
        quoteIdentifier (credentials.schema.getD "") ++ "." ++ quoteIdentifier table
      else
        quoteIdentifier table

/-- Decimal digit character for `n % 10`. -/
def digitChar (n : Nat) : Char :=
  if n % 10 = 0 then '0' else if n % 10 = 1 then '1' else if n % 10 = 2 then '2'
  else if n % 10 = 3 then '3' else if n % 10 = 4 then '4' else if n % 10 = 5 then '5'
  else if n % 10 = 6 then '6' else if n % 10 = 7 then '7' else if n % 10 = 8 then '8'
  else '9'

/-- Fuel-driven decimal rendering of a natural number (the fuel is always
sufficient when called through `natToStr`). -/
def natToStrAux : Nat → Nat → List Char
  | 0, _ => []
  | fuel + 1, n => if n < 10 then [digitChar n] else natToStrAux fuel (n / 10) ++ [digitChar n]

/-- Decimal rendering of a natural number, modelling JavaScript template
interpolation of a non-negative integer. -/
def natToStr (n : Nat) : String :=
  ⟨natToStrAux (n + 1) n⟩

/-- Decimal rendering of an integer. -/
def intToStr (i : Int) : String :=
  if i < 0 then "-" ++ natToStr i.natAbs else natToStr i.toNat

/-- Rendering of a number for template interpolation.  Integral rationals
render exactly as JavaScript renders integral doubles; the rendering of
non-integral numbers is abstracted (no theorem in this file depends on
it). -/
def ratToStr (q : Rat) : String :=
  if q.den = 1 then intToStr q.num else intToStr q.num ++ ".." ++ natToStr q.den

/-- Model of JavaScript string interpolation of a value inside a template
literal.  Strings interpolate as themselves, null as the text null,
booleans and integers in the JavaScript way; the interpolation of arrays
is abstracted (no theorem in this file depends on it). -/
def interpValue : Value → String
  | Value.vnull => "null"
  | Value.vundef => "undefined"
  | Value.vstr s => s
  | Value.vnum q => ratToStr q
  | Value.vbool b => if b then "true" else "false"
  | Value.vobj _ => "[object Object]"
  | Value.varr _ => "[array]"

mutual
/-- Model of a CQN predicate token: a string operator, a column
reference, a literal value, a function call, a parenthesized
sub-expression, or an IN-list.  These are the five object shapes (plus
the operator string) that `translateExpression` in `src/cqn/filters.ts`
distinguishes. -/
inductive Expr where
  | op : String → Expr
  | ref : List String → Expr
  | val : Value → Expr
  | func : String → ExprList → Expr
  | xpr : ExprList → Expr
  | list : ExprList → Expr

/-- A token sequence (spine of the token array, kept as its own inductive
so the translation functions are mutually structurally recursive). -/
inductive ExprList where
  | nil : ExprList
  | cons : Expr → ExprList → ExprList
end

/-- Convenience conversion from a Lean list of tokens. -/
def EL : List Expr → ExprList
  | [] => ExprList.nil
  | e :: rest => ExprList.cons e (EL rest)

/-- Embedding of `translateOperator` from `src/cqn/filters.ts`: the
logical and keyword operators are uppercased, every other operator
(comparison operators and unknown ones) passes through unchanged. -/
def translateOperator (op : String) : String :=
  let u := upperStr op
  if u = "AND" || u = "OR" || u = "NOT" || u = "LIKE" || u = "IN" || u = "BETWEEN" || u = "IS"
  then u else op

/-- Embedding of `translateRef` from `src/cqn/filters.ts`: a one-segment
reference is the quoted identifier, a multi-segment path is the quoted
segments joined by dots. -/
def translateRef (ref : List String) : String :=
  match ref with
  | [r] => quoteIdentifier r
  | _ => sjoin (".") (ref.map quoteIdentifier)

/-- Embedding of `translateVal` from `src/cqn/filters.ts`: null renders
as the text NULL with no parameter; every other value is appended to the
parameter list and rendered as one positional placeholder. -/
def translateVal (v : Value) (params : List Value) : String × List Value :=
  match v with
  | Value.vnull => ("NULL", params)
  | w => ("?", params ++ [w])

mutual
/-- Embedding of the per-token dispatch of `translateExpression` in
`src/cqn/filters.ts`.  The mutable `params` array of the source is
threaded explicitly. -/
def translateElement : Expr → List Value → String × List Value
  | Expr.op s, params => (translateOperator s, params)
  | Expr.ref r, params => (translateRef r, params)
  | Expr.val v, params => translateVal v params
  | Expr.func n args, params => translateFunc n args params
  | Expr.xpr xs, params =>
      let r := translateParts xs params
      ("(" ++ sjoin (" ") r.1 ++ ")", r.2)
  | Expr.list xs, params =>
      let r := translateListItems xs params
      ("(" ++ sjoin (", ") r.1 ++ ")", r.2)
termination_by e _ => (sizeOf e, 4)

/-- Embedding of the `translateFunc` switch of `src/cqn/filters.ts`:
dispatch on the uppercased function name.  LOWER, UPPER, LENGTH, YEAR,
MONTH and DAY wrap their translated argument sequence; SUBSTRING takes
two or three arguments; the string-pattern functions are rewritten into
LIKE with a synthesized wildcarded parameter; everything else (and every
argument-shape mismatch, after any parameter pushes already made) falls
back to a generic call rendering. -/
def translateFunc (n : String) (args : ExprList) (params : List Value) : String × List Value :=
  let u := upperStr n
  if u = "LOWER" || u = "UPPER" || u = "LENGTH" || u = "YEAR" || u = "MONTH" || u = "DAY" then
    let r := translateParts args params
    (u ++ "(" ++ sjoin (" ") r.1 ++ ")", r.2)
  else if u = "SUBSTRING" then
    translateSubstring u args params
  else if u = "CONTAINS" then
    translatePatternFunc u (fun s => "%" ++ s ++ "%") args params
  else if u = "STARTSWITH" then
    translatePatternFunc u (fun s => s ++ "%") args params
  else if u = "ENDSWITH" then
    translatePatternFunc u (fun s => "%" ++ s) args params
  else
    translateGenericFunc u args params
termination_by (sizeOf args, 3)

/-- The generic `NAME(arg, arg, ...)` fallback rendering of
`translateFunc` (each argument translated as a singleton expression,
which equals its element translation, joined by commas). -/
def translateGenericFunc (u : String) (args : ExprList) (params : List Value) : String × List Value :=
  let r := translateParts args params
  (u ++ "(" ++ sjoin (", ") r.1 ++ ")", r.2)
termination_by (sizeOf args, 1)

/-- The SUBSTRING case of `translateFunc`: with at least two arguments
the first two (and an optional third) are translated in order; with
fewer the switch breaks out to the generic fallback. -/
def translateSubstring (u : String) (args : ExprList) (params : List Value) : String × List Value :=
  match args with
  | ExprList.cons a (ExprList.cons b rest) =>
      let rs := translateElement a params
      let rt := translateElement b rs.2
      (match rest with
       | ExprList.nil => ("SUBSTRING(" ++ rs.1 ++ ", " ++ rt.1 ++ ")", rt.2)
       | ExprList.cons c _ =>
           let rl := translateElement c rt.2
           ("SUBSTRING(" ++ rs.1 ++ ", " ++ rt.1 ++ ", " ++ rl.1 ++ ")", rl.2))
  | other => translateGenericFunc u other params
termination_by (sizeOf args, 2)

/-- The CONTAINS / STARTSWITH / ENDSWITH case of `translateFunc`, with
`mk` the wildcard transform applied to the interpolated literal.  With
exactly two arguments the first is translated (pushing its parameters),
then a literal second argument becomes a synthesized LIKE parameter;
otherwise the switch breaks out to the generic fallback — with the
parameters already pushed for the first argument kept, as in the
source, where the fallback re-translates every argument. -/
def translatePatternFunc (u : String) (mk : String → String) (args : ExprList) (params : List Value) : String × List Value :=
  match args with
  | ExprList.cons a (ExprList.cons b ExprList.nil) =>
      let rs := translateElement a params
      (match b with
       | Expr.val v =>
           (rs.1 ++ " LIKE ?", rs.2 ++ [Value.vstr (mk (interpValue v))])
       | b2 =>
           translateGenericFunc u (ExprList.cons a (ExprList.cons b2 ExprList.nil)) rs.2)
  | other => translateGenericFunc u other params
termination_by (sizeOf args, 2)

/-- The parts array collected by the token loop of
`translateExpression`, one part per token, together with the final
parameter list. -/
def translateParts : ExprList → List Value → List String × List Value
  | ExprList.nil, params => ([], params)
  | ExprList.cons e rest, params =>
      let r := translateElement e params
      let rs := translateParts rest r.2
      (r.1 :: rs.1, rs.2)
termination_by xs _ => (sizeOf xs, 0)

/-- Embedding of the item map of `translateList` in
`src/cqn/filters.ts`: an item carrying a `val` field (null included) is
appended to the parameter list and rendered as a placeholder; any other
item is translated as an expression element. -/
def translateListItems : ExprList → List Value → List String × List Value
  | ExprList.nil, params => ([], params)
  | ExprList.cons item rest, params =>
      match item with
      | Expr.val v =>
          let rs := translateListItems rest (params ++ [v])
          ("?" :: rs.1, rs.2)
      | e =>
          let r := translateElement e params
          let rs := translateListItems rest r.2
          (r.1 :: rs.1, rs.2)
termination_by xs _ => (sizeOf xs, 0)
end

/-- Embedding of `translateExpression` from `src/cqn/filters.ts`: the
parts of the token sequence joined by single spaces. -/
def translateExpression (xpr : ExprList) (params : List Value) : String × List Value :=
  let r := translateParts xpr params
  (sjoin (" ") r.1, r.2)

/-- Embedding of `translateFilter` from `src/cqn/filters.ts`: the empty
token sequence yields the empty fragment, otherwise the expression is
translated. -/
def translateFilter (xpr : ExprList) (params : List Value) : String × List Value :=
  match xpr with
  | ExprList.nil => ("", params)
  | xs => translateExpression xs params

/-- Embedding of `translatePagination` from `src/cqn/pagination.ts`
(the source receives `{top, skip}` built from `limit.rows?.val` and
`limit.offset?.val`): a LIMIT part only for a present, non-negative
limit; an OFFSET part only for a present, strictly positive offset; the
parts joined by a space. -/
def translatePagination (top skip : Option Int) : String :=
  let parts : List String :=
    (match top with
     | some n => if 0 ≤ n then ["LIMIT " ++ intToStr n] else []
     | none => []) ++
    (match skip with
     | some m => if 0 < m then ["OFFSET " ++ intToStr m] else []
     | none => [])
  sjoin (" ") parts

/-- Embedding of `wrapWithCount` from `src/cqn/pagination.ts`. -/
def wrapWithCount (sql : String) : String :=
  "SELECT COUNT(*) AS \"count\" FROM (" ++ sql ++ ") AS \"countQuery\""

/-- An ORDER BY item of the query tree. -/
structure OrderByItem where
  ref : Option (List String)
  sort : Option String
  nulls : Option String

/-- Embedding of `translateOrderByItem` from `src/cqn/orderby.ts` (an
item without a reference falls back to JavaScript string conversion of
the object). -/
def translateOrderByItem (item : OrderByItem) : String :=
  let clause :=
    match item.ref with
    | some r => sjoin (".") (r.map quoteIdentifier)
    | none => "[object Object]"
  let clause2 :=
    match item.sort with
    | some s => clause ++ " " ++ upperStr s
    | none => clause
  match item.nulls with
  | some s => clause2 ++ " NULLS " ++ upperStr s
  | none => clause2

/-- Embedding of `translateOrderBy` from `src/cqn/orderby.ts`. -/
def translateOrderBy (orderBy : List OrderByItem) : String :=
  match orderBy with
  | [] => ""
  | items => "ORDER BY " ++ sjoin (", ") (items.map translateOrderByItem)

/-- A sub-column of an expand/inline specification or a function
argument (only its reference and alias are consulted by the source). -/
structure SubCol where
  ref : Option (List String)
  alias_ : Option String

/-- A column specification of a SELECT tree, mirroring the optional
fields of the duck-typed `ColumnSpec` of `src/cqn/toSQL.ts` (`alias_`
models the `as` field, `val` models presence of a `val` field). -/
structure ColumnSpec where
  ref : Option (List String)
  alias_ : Option String
  expand : Option (List SubCol)
  inline_ : Option (List SubCol)
  func : Option String
  args : Option (List SubCol)
  val : Option Value

/-- The FROM clause of a SELECT tree (`alias_` models the `as` field). -/
structure FromClause where
  ref : Option (List String)
  alias_ : Option String

/-- A GROUP BY entry (only its reference is consulted; anything else
falls back to JavaScript string conversion). -/
structure GroupByItem where
  ref : Option (List String)

/-- The LIMIT clause of a SELECT tree: `rows` models `limit.rows?.val`
and `offset` models `limit.offset?.val`. -/
structure LimitClause where
  rows : Option Int
  offset : Option Int

/-- A SELECT query tree, with `whereXpr` modelling the `where` token
array (the empty sequence modelling an absent or empty predicate, which
the source treats alike). -/
structure SelectCQN where
  fromClause : FromClause
  columns : Option (List ColumnSpec)
  whereXpr : ExprList
  groupBy : List GroupByItem
  having : ExprList
  orderBy : List OrderByItem
  limit : Option LimitClause
  distinct : Bool

/-- Embedding of `translateColumn` from `src/cqn/toSQL.ts`.  A literal
column value that is not null is inlined by JavaScript string
conversion (unlike predicate literals, which are parameter-bound). -/
def translateColumnFunc (col : ColumnSpec) : String :=
  let funcName := upperStr (col.func.getD "")
  let noArgs := match col.args with
    | none => true
    | some l => l.isEmpty
  if funcName = "COUNT" && noArgs then "COUNT(*)"
  else
    match col.args with
    | some (a :: rest) =>
        funcName ++ "(" ++
          sjoin (", ") ((a :: rest).map (fun arg =>
            match arg.ref with
            | some r => sjoin (".") (r.map quoteIdentifier)
            | none => "*")) ++ ")"
    | _ => funcName ++ "()"

/-- Embedding of `translateColumn` from `src/cqn/toSQL.ts`. -/
def translateColumn (col : ColumnSpec) : String :=
  match col.ref with
  | some r =>
      let colName := sjoin (".") (r.map quoteIdentifier)
      if optTruthy col.alias_ then colName ++ " AS " ++ quoteIdentifier (col.alias_.getD "")
      else colName
  | none =>
      if optTruthy col.func then
        let funcCall := translateColumnFunc col
        if optTruthy col.alias_ then funcCall ++ " AS " ++ quoteIdentifier (col.alias_.getD "")
        else funcCall
      else
        match col.val with
        | some Value.vnull => "NULL"
        | some v => interpValue v
        | none => "*"

/-- Embedding of `translateGroupBy` from `src/cqn/toSQL.ts`. -/
def translateGroupBy (g : GroupByItem) : String :=
  match g.ref with
  | some r => sjoin (".") (r.map quoteIdentifier)
  | none => "[object Object]"

/-- Embedding of `translateFrom` from `src/cqn/toSQL.ts`: a FROM clause
without a reference is a caller contract violation and throws. -/
def translateFrom (f : FromClause) (credentials : SnowflakeCredentials) : Except String String :=
  match f.ref with
  | some r =>
      let tableName := sjoin (".") r
      let qualified := qualifyName tableName credentials true
      if optTruthy f.alias_ then
        Except.ok (qualified ++ " AS " ++ quoteIdentifier (f.alias_.getD ""))
      else Except.ok qualified
  | none => Except.error ("Invalid FROM clause")

/-- Model of `s.charAt(0).toUpperCase() + s.slice(1)`. -/
def capitalizeFirst (s : String) : String :=
  match s.data with
  | [] => ""
  | c :: rest => ⟨upperChar c :: rest⟩

/-- Embedding of `processColumnsWithExpand` from `src/cqn/toSQL.ts`,
with the mutable join counter threaded explicitly.  Every expand or
inline column produces one LEFT JOIN against a target table guessed from
the association name (capitalized) with a guessed `<assoc>_ID` foreign
key; expand leaf columns are aliased `<assoc>_<col>`, inline leaf
columns take the caller-supplied alias when present.  Returns (base
columns, expanded columns, joins). -/
def processColumnsWithExpand :
    List ColumnSpec → String → SnowflakeCredentials → Nat → List String × List String × List String
  | [], _, _, _ => ([], [], [])
  | col :: rest, baseAlias, credentials, joinCounter =>
      match col.expand with
      | some expandSpec =>
          let assocName := (col.ref.getD []).headD ""
          let joinAlias := "expand_" ++ natToStr joinCounter
          let foreignKey := assocName ++ "_ID"
          let targetTable := qualifyName (capitalizeFirst assocName) credentials true
          let joinSQL := "LEFT JOIN " ++ targetTable ++ " AS " ++ joinAlias ++ " ON " ++
            baseAlias ++ "." ++ quoteIdentifier foreignKey ++ " = " ++ joinAlias ++ ".ID"
          let expandCols := expandSpec.filterMap (fun expandCol =>
            match expandCol.ref with
            | some r =>
                let colName := r.getLastD ""
                some (joinAlias ++ "." ++ quoteIdentifier colName ++ " AS " ++
                  quoteIdentifier (assocName ++ "_" ++ colName))
            | none => none)
          let r := processColumnsWithExpand rest baseAlias credentials (joinCounter + 1)
          (r.1, expandCols ++ r.2.1, joinSQL :: r.2.2)
      | none =>
      match col.inline_ with
      | some inlineSpec =>
          let assocName := (col.ref.getD []).headD ""
          let joinAlias := "inline_" ++ natToStr joinCounter
          let foreignKey := assocName ++ "_ID"
          let targetTable := qualifyName (capitalizeFirst assocName) credentials true
          let joinSQL := "LEFT JOIN " ++ targetTable ++ " AS " ++ joinAlias ++ " ON " ++
            baseAlias ++ "." ++ quoteIdentifier foreignKey ++ " = " ++ joinAlias ++ ".ID"
          let inlineCols := inlineSpec.filterMap (fun inlineCol =>
            match inlineCol.ref with
            | some r =>
                let colName := r.getLastD ""
                let alias0 :=
                  if optTruthy inlineCol.alias_ then inlineCol.alias_.getD ""
                  else assocName ++ "_" ++ colName
                some (joinAlias ++ "." ++ quoteIdentifier colName ++ " AS " ++
                  quoteIdentifier alias0)
            | none => none)
          let r := processColumnsWithExpand rest baseAlias credentials (joinCounter + 1)
          (r.1, inlineCols ++ r.2.1, joinSQL :: r.2.2)
      | none =>
          let r := processColumnsWithExpand rest baseAlias credentials joinCounter
          (translateColumn col :: r.1, r.2.1, r.2.2)

/-- Embedding of `translateSelect` from `src/cqn/toSQL.ts`: the clauses
are assembled in the source's fixed order (columns/expansions, FROM,
joins — which the source appends without a leading space — WHERE, GROUP
BY, HAVING, ORDER BY, LIMIT/OFFSET), threading the parameter list
through the WHERE and HAVING translations. -/
def translateSelect (select : SelectCQN) (credentials : SnowflakeCredentials) (params : List Value) :
    Except String (String × List Value) :=
  match translateFrom select.fromClause credentials with
  | Except.error e => Except.error e
  | Except.ok fromSql =>
      let start := "SELECT" ++ (if select.distinct then " DISTINCT" else "")
      let colsFrom :=
        match select.columns with
        | some (c :: cs) =>
            if (c :: cs).any (fun col => col.expand.isSome || col.inline_.isSome) then
              let baseAlias :=
                if optTruthy select.fromClause.alias_ then select.fromClause.alias_.getD ""
                else "base"
              let pce := processColumnsWithExpand (c :: cs) baseAlias credentials 0
              start ++ " " ++ sjoin (", ") (pce.1 ++ pce.2.1) ++ " FROM " ++ fromSql ++
                sjoin (" ") pce.2.2
            else
              start ++ " " ++ sjoin (", ") ((c :: cs).map translateColumn) ++ " FROM " ++ fromSql
        | _ => start ++ " *" ++ " FROM " ++ fromSql
      let w := translateFilter select.whereXpr params
      let sql1 := colsFrom ++ (if w.1 = "" then "" else " WHERE " ++ w.1)
      let sql2 := sql1 ++
        (match select.groupBy with
         | [] => ""
         | gs => " GROUP BY " ++ sjoin (", ") (gs.map translateGroupBy))
      let h := translateFilter select.having w.2
      let sql3 := sql2 ++ (if h.1 = "" then "" else " HAVING " ++ h.1)
      let ob := translateOrderBy select.orderBy
      let sql4 := sql3 ++ (if ob = "" then "" else " " ++ ob)
      let sql5 := sql4 ++
        (match select.limit with
         | some l =>
             let p := translatePagination l.rows l.offset
             if p = "" then "" else " " ++ p
         | none => "")
      Except.ok (sql5, h.2)

/-- The record keys of a JavaScript object modelled as an ordered field
list (`Object.keys`). -/
def objKeys (r : List (String × Value)) : List String :=
  r.map (fun kv => kv.1)

/-- Property access `r[k]` on a record, `undefined` when absent. -/
def objGet (r : List (String × Value)) (k : String) : Value :=
  (((r.find? (fun kv => kv.1 = k)).map (fun kv => kv.2))).getD Value.vundef

/-- An INSERT query tree, mirroring the optional fields of
`InsertCQN`. -/
structure InsertCQN where
  into : String
  entries : Option (List (List (String × Value)))
  columns : Option (List String)
  values : Option (List Value)
  rows : Option (List (List Value))

/-- Embedding of `translateInsert` from `src/cqn/toSQL.ts`.  For the
batch-of-records form the column list comes from the first record's
keys and each record binds one value per such column (a missing key
binds `undefined`; no key-set validation is performed).  The explicit
columns+values and rows forms bind every value; anything else throws. -/
def translateInsert (insert : InsertCQN) (credentials : SnowflakeCredentials) (params : List Value) :
    Except String (String × List Value) :=
  let tableName := qualifyName insert.into credentials true
  match insert.entries with
  | some (firstEntry :: restEntries) =>
      let columns := objKeys firstEntry
      let quotedCols := columns.map quoteIdentifier
      let entryParams := (firstEntry :: restEntries).flatMap (fun entry => columns.map (objGet entry))
      let valueSets := (firstEntry :: restEntries).map (fun _ =>
        "(" ++ sjoin (", ") (columns.map (fun _ => "?")) ++ ")")
      Except.ok ("INSERT INTO " ++ tableName ++ " (" ++ sjoin (", ") quotedCols ++
        ") VALUES " ++ sjoin (", ") valueSets, params ++ entryParams)
  | _ =>
  match insert.columns, insert.values with
  | some cols, some vals =>
      Except.ok ("INSERT INTO " ++ tableName ++ " (" ++ sjoin (", ") (cols.map quoteIdentifier) ++
        ") VALUES (" ++ sjoin (", ") (vals.map (fun _ => "?")) ++ ")", params ++ vals)
  | _, _ =>
  match insert.rows with
  | some rws =>
      let quotedCols := (insert.columns.getD []).map quoteIdentifier
      Except.ok ("INSERT INTO " ++ tableName ++ " (" ++ sjoin (", ") quotedCols ++
        ") VALUES " ++ sjoin (", ") (rws.map (fun row =>
          "(" ++ sjoin (", ") (row.map (fun _ => "?")) ++ ")")), params ++ rws.flatten)
  | none => Except.error ("Invalid INSERT statement")

/-- Embedding of `generateMerge` from `src/cqn/toSQL.ts`: a MERGE with a
parameter-bound synthetic source row, an ON clause over the key columns,
an UPDATE SET branch over the non-key columns (omitted when there are
none) and an INSERT branch over all columns. -/
def generateMerge (tableName : String) (keys : List String) (data : List (String × Value))
    (credentials : SnowflakeCredentials) : String × List Value :=
  let qualified := qualifyName tableName credentials true
  let allColumns := objKeys data
  let quotedKeys := keys.map quoteIdentifier
  let quotedCols := allColumns.map quoteIdentifier
  let params := allColumns.map (objGet data)
  let onConditions := sjoin (" AND ") (quotedKeys.map (fun key =>
    "target." ++ key ++ " = source." ++ key))
  let updateCols := allColumns.filter (fun col => !(keys.contains col))
  let updateSetClauses := updateCols.map (fun col =>
    quoteIdentifier col ++ " = source." ++ quoteIdentifier col)
  let sql :=
    "MERGE INTO " ++ qualified ++ " AS target\n" ++
    "USING (SELECT " ++ sjoin (", ") (quotedCols.map (fun col => "? AS " ++ col)) ++ ") AS source\n" ++
    "ON " ++ onConditions ++ "\n" ++
    (if updateSetClauses.isEmpty then ""
     else "WHEN MATCHED THEN UPDATE SET " ++ sjoin (", ") updateSetClauses ++ "\n") ++
    "WHEN NOT MATCHED THEN INSERT (" ++ sjoin (", ") quotedCols ++ ") VALUES (" ++
      sjoin (", ") (quotedCols.map (fun col => "source." ++ col)) ++ ")"
  (sql, params)

/-- A flat result row: an ordered list of named fields, modelling a
JavaScript object as `Object.entries` yields it. -/
abbrev Row := List (String × Value)

/-- JavaScript property set `r[k] = v`: update the first field named `k`
in place, or append a new field. -/
def rowSet (r : Row) (k : String) (v : Value) : Row :=
  match r with
  | [] => [(k, v)]
  | (k0, v0) :: rest => if k0 = k then (k0, v) :: rest else (k0, v0) :: rowSet rest k v

/-- Lookup of a field (first occurrence). -/
def rowGet (r : Row) (k : String) : Option Value :=
  (r.find? (fun kv => kv.1 = k)).map (fun kv => kv.2)

/-- Model of `hay.startsWith(needle)` on character lists. -/
def charsStart : List Char → List Char → Bool
  | _, [] => true
  | [], _ :: _ => false
  | c :: cs, p :: pst => c = p && charsStart cs pst

/-- Model of `hay.startsWith(needle)`. -/
def strStarts (hay needle : String) : Bool :=
  charsStart hay.data needle.data

/-- Model of `s.substring(n)`. -/
def strDropChars (s : String) (n : Nat) : String :=
  ⟨s.data.drop n⟩

/-- The cardinality and requested columns recorded per expansion in the
reshaper's plan (`etype` is the source's `'to-one' | 'to-many'`
string). -/
structure ExpandMeta where
  etype : String
  columns : List String

/-- The first association of the plan whose prefix (or whole `_data`
alias) matches the key, with `true` for a prefix match — the inner
`for (const [assocName] of expansions)` loop of
`restructureJoinedResults` with its two match conditions and `break`. -/
def findMatchingAssoc (expansions : List (String × ExpandMeta)) (k : String) :
    Option (String × Bool) :=
  match expansions with
  | [] => none
  | (assocName, _) :: rest =>
      if strStarts k (assocName ++ "_") then some (assocName, true)
      else if k = assocName ++ "_data" then some (assocName, false)
      else findMatchingAssoc rest k

/-- The values of a collected expansion datum as `Object.values` sees
them (the `_data` branch can record a non-object; `Object.values` of a
primitive is empty). -/
def objValues : Value → List Value
  | Value.vobj fields => fields.map (fun kv => kv.2)
  | Value.varr xs => xs
  | _ => []

/-- JavaScript truthiness of a value. -/
def jsTruthy : Value → Bool
  | Value.vnull => false
  | Value.vundef => false
  | Value.vbool b => b
  | Value.vnum q => !(q = 0)
  | Value.vstr s => !(s = "")
  | Value.vobj _ => true
  | Value.varr _ => true

/-- The entry-partition loop of `restructureJoinedResults`: walk the
row's fields in order; a field matching an expansion prefix is collected
into that expansion's nested object (created on first use, fields set in
JavaScript property order), a field equal to `<assoc>_data` records the
raw value, and every other field is set on the result row. -/
def collectSplit (expansions : List (String × ExpandMeta)) :
    Row → Row → List (String × Value) → Row × List (String × Value)
  | [], result, expandedData => (result, expandedData)
  | (k, v) :: rest, result, expandedData =>
      match findMatchingAssoc expansions k with
      | some (assocName, true) =>
          let fieldName := strDropChars k (assocName.length + 1)
          let cur := (rowGet expandedData assocName).getD (Value.vobj [])
          let newData :=
            match cur with
            | Value.vobj fields => Value.vobj (rowSet fields fieldName v)
            | other => other
          collectSplit expansions rest result (rowSet expandedData assocName newData)
      | some (assocName, false) =>
          collectSplit expansions rest result (rowSet expandedData assocName v)
      | none =>
          collectSplit expansions rest (rowSet result k v) expandedData

/-- The attach loop of `restructureJoinedResults`: each collected
expansion datum is installed under the association name — for a to-one
expansion as the nested object, or null when every collected value is
null; otherwise (to-many, or no recorded metadata) as an array. -/
def attachVal (expansions : List (String × ExpandMeta)) (assocName : String)
    (data : Value) : Value :=
  let isToOne :=
    match expansions.find? (fun am => am.1 = assocName) with
    | some am => am.2.etype == "to-one"
    | none => false
  if isToOne then
    if (objValues data).any (fun x => !(x matches Value.vnull)) then data else Value.vnull
  else
    match data with
    | Value.varr xs => Value.varr xs
    | d => if jsTruthy d then Value.varr [d] else Value.varr []

def attachExpanded (expansions : List (String × ExpandMeta)) :
    Row → List (String × Value) → Row
  | result, [] => result
  | result, (assocName, data) :: rest =>
      attachExpanded expansions (rowSet result assocName (attachVal expansions assocName data)) rest

/-- Embedding of `restructureJoinedResults` from `src/cqn/joins.ts` on a
single row. -/
def restructureRow (expansions : List (String × ExpandMeta)) (row : Row) : Row :=
  let split := collectSplit expansions row [] []
  attachExpanded expansions split.1 split.2

/-- Embedding of `restructureJoinedResults` from `src/cqn/joins.ts`. -/
def restructureJoinedResults (rows : List Row) (expansions : List (String × ExpandMeta)) :
    List Row :=
  rows.map (restructureRow expansions)

/-- Embedding of `generateExpandedSelect` from `src/cqn/joins.ts`: base
columns qualified by the base alias, expanded leaf columns aliased
`<joinAlias>_<col>` (a star becomes an OBJECT_CONSTRUCT aliased
`<joinAlias>_data`). -/
def generateExpandedSelect (baseColumns : List String)
    (expandedColumns : List (String × List String)) (baseAlias : String) : List String :=
  (baseColumns.map (fun col =>
    if col = "*" then baseAlias ++ ".*"
    else baseAlias ++ "." ++ quoteIdentifier col)) ++
  (expandedColumns.flatMap (fun jc =>
    jc.2.map (fun col =>
      if col = "*" then "OBJECT_CONSTRUCT(*) AS " ++ quoteIdentifier (jc.1 ++ "_data")
      else jc.1 ++ "." ++ quoteIdentifier col ++ " AS " ++ quoteIdentifier (jc.1 ++ "_" ++ col))))

/-- The names of the two validity-interval fields of a time-sliced
entity. -/
structure TemporalFields where
  validFrom : String
  validTo : String

/-- A temporal query: a point-in-time instant, or a range (instants are
modelled as their rendered string form). -/
structure TemporalQuery where
  asOf : Option String
  fromInstant : Option String
  toInstant : Option String

/-- Model of `formatTemporalValue` from `src/temporal.ts` on an instant
already rendered as a string. -/
def formatTemporalValue (v : String) : String :=
  "'" ++ v ++ "'"

/-- Embedding of `addTemporalConditions` from `src/temporal.ts`: an
existing non-empty WHERE clause is parenthesized and becomes the first
conjunct; then, by mode: point-in-time `validFrom <= X AND X < validTo`,
range `validTo > from` and/or `validFrom < to`, or the default
as-of-now pair using CURRENT_TIMESTAMP(); all conjuncts joined by
AND. -/
def addTemporalConditions (whereClause : String) (temporalFields : TemporalFields)
    (temporalQuery : Option TemporalQuery) : String :=
  let validFrom := quoteIdentifier temporalFields.validFrom
  let validTo := quoteIdentifier temporalFields.validTo
  let base := if whereClause = "" then [] else ["(" ++ whereClause ++ ")"]
  let defaultConds := [validFrom ++ " <= CURRENT_TIMESTAMP()",
    "CURRENT_TIMESTAMP() < " ++ validTo]
  let conds :=
    match temporalQuery with
    | some q =>
        if optTruthy q.asOf then
          let a := formatTemporalValue (q.asOf.getD "")
          [validFrom ++ " <= " ++ a, a ++ " < " ++ validTo]
        else if optTruthy q.fromInstant || optTruthy q.toInstant then
          (if optTruthy q.fromInstant then
            [validTo ++ " > " ++ formatTemporalValue (q.fromInstant.getD "")] else []) ++
          (if optTruthy q.toInstant then
            [validFrom ++ " < " ++ formatTemporalValue (q.toInstant.getD "")] else [])
        else defaultConds
    | none => defaultConds
  sjoin (" AND ") (base ++ conds)

/-! Equation lemmas for the translation functions (their well-founded
definitions do not reduce definitionally, so each case is restated). -/

theorem tElem_op (s : String) (ps : List Value) :
    translateElement (Expr.op s) ps = (translateOperator s, ps) := by
  rw [translateElement.eq_def]

theorem tElem_ref (r : List String) (ps : List Value) :
    translateElement (Expr.ref r) ps = (translateRef r, ps) := by
  rw [translateElement.eq_def]

theorem tElem_val (v : Value) (ps : List Value) :
    translateElement (Expr.val v) ps = translateVal v ps := by
  rw [translateElement.eq_def]

theorem tElem_func (n : String) (args : ExprList) (ps : List Value) :
    translateElement (Expr.func n args) ps = translateFunc n args ps := by
  rw [translateElement.eq_def]

theorem tElem_xpr (xs : ExprList) (ps : List Value) :
    translateElement (Expr.xpr xs) ps =
      ("(" ++ sjoin (" ") (translateParts xs ps).1 ++ ")", (translateParts xs ps).2) := by
  rw [translateElement.eq_def]

theorem tElem_list (xs : ExprList) (ps : List Value) :
    translateElement (Expr.list xs) ps =
      ("(" ++ sjoin (", ") (translateListItems xs ps).1 ++ ")", (translateListItems xs ps).2) := by
  rw [translateElement.eq_def]

theorem tParts_nil (ps : List Value) : translateParts ExprList.nil ps = ([], ps) := by
  rw [translateParts.eq_def]

theorem tParts_cons (e : Expr) (rest : ExprList) (ps : List Value) :
    translateParts (ExprList.cons e rest) ps =
      ((translateElement e ps).1 :: (translateParts rest (translateElement e ps).2).1,
        (translateParts rest (translateElement e ps).2).2) := by
  rw [translateParts.eq_def]

theorem tItems_nil (ps : List Value) : translateListItems ExprList.nil ps = ([], ps) := by
  rw [translateListItems.eq_def]

theorem tItems_cons_val (v : Value) (rest : ExprList) (ps : List Value) :
    translateListItems (ExprList.cons (Expr.val v) rest) ps =
      ("?" :: (translateListItems rest (ps ++ [v])).1, (translateListItems rest (ps ++ [v])).2) := by
  rw [translateListItems.eq_def]

/-- Whether a token carries a `val` field (discriminates the two arms of
the list-item map). -/
def isValTok : Expr → Bool
  | Expr.val _ => true
  | _ => false

theorem tItems_cons_other (item : Expr) (rest : ExprList) (ps : List Value)
    (h : isValTok item = false) :
    translateListItems (ExprList.cons item rest) ps =
      ((translateElement item ps).1 :: (translateListItems rest (translateElement item ps).2).1,
        (translateListItems rest (translateElement item ps).2).2) := by
  cases item <;> simp [isValTok] at h <;> rw [translateListItems.eq_def]

/-! Character-level helper lemmas. -/

theorem countC_append (c : Char) (s t : String) :
    countC c (s ++ t) = countC c s + countC c t := by
  simp [countC, String.data_append]

theorem countC_sjoin_zero (c : Char) (sep : String) (hsep : countC c sep = 0) :
    ∀ l : List String, countC c (sjoin sep l) = (l.map (countC c)).sum
  | [] => by simp [sjoin, countC]
  | [s] => by simp [sjoin]
  | s :: t :: rest => by
      have ih := countC_sjoin_zero c sep hsep (t :: rest)
      simp only [sjoin, countC_append, hsep, List.map_cons, List.sum_cons] at ih ⊢
      omega

theorem toNat_ofNat_small (m : Nat) (h : m < 55296) : (Char.ofNat m).toNat = m := by
  have hv : m.isValidChar := Or.inl h
  simp only [Char.ofNat, Char.toNat, Char.ofNatAux]
  rw [dif_pos hv]
  rfl

theorem upperChar_ne_q (ch : Char) (h : ¬ ch = '?') : ¬ upperChar ch = '?' := by
  unfold upperChar
  split_ifs with hc
  · intro hq
    simp only [Bool.and_eq_true, decide_eq_true_eq] at hc
    have h1 : (Char.ofNat (ch.toNat - 32)).toNat = ch.toNat - 32 :=
      toNat_ofNat_small _ (by omega)
    rw [hq] at h1
    have h2 : ('?' : Char).toNat = 63 := by decide
    omega
  · exact h

theorem countC_q_upperStr (s : String) : countC ('?') (upperStr s) = countC ('?') s := by
  simp only [countC, upperStr]
  induction s.data with
  | nil => rfl
  | cons ch rest ih =>
      by_cases h : ch = '?'
      · subst h
        have h2 : upperChar ('?') = '?' := by decide
        simp [h2, ih, List.count_cons]
      · have h2 : ¬ upperChar ch = '?' := upperChar_ne_q ch h
        simp [List.count_cons, h, h2, ih]

theorem countC_q_translateOperator (s : String) (h : countC ('?') s = 0) :
    countC ('?') (translateOperator s) = 0 := by
  simp only [translateOperator]
  split_ifs
  · rw [countC_q_upperStr]; exact h
  · exact h

theorem countC_q_escQuotes : ∀ l : List Char, l.count '?' = 0 → (escQuotes l).count '?' = 0
  | [], _ => by simp [escQuotes]
  | c :: rest, h => by
      have hrest : rest.count '?' = 0 := by
        simp [List.count_cons] at h
        omega
      have hc : ¬ c = '?' := by
        intro hq
        subst hq
        simp [List.count_cons] at h
      by_cases hq : c = '"'
      · subst hq
        have : ¬ ('"' : Char) = '?' := by decide
        simp [escQuotes, List.count_cons, countC_q_escQuotes rest hrest, this]
      · simp [escQuotes, hq, List.count_cons, countC_q_escQuotes rest hrest, hc]

theorem countC_q_quoteIdentifier (s : String) (h : countC ('?') s = 0) :
    countC ('?') (quoteIdentifier s) = 0 := by
  unfold quoteIdentifier
  split_ifs with h1 h2 h3
  · exact h
  · exact h
  · have hesc : (escQuotes s.data).count '?' = 0 := countC_q_escQuotes s.data h
    have hquote : ¬ ('"' : Char) = '?' := by decide
    simp [countC, List.count_cons, List.count_append, hesc, hquote]
  · exact h

theorem countC_q_translateRef (r : List String) (h : ∀ seg ∈ r, countC ('?') seg = 0) :
    countC ('?') (translateRef r) = 0 := by
  unfold translateRef
  match r with
  | [x] => exact countC_q_quoteIdentifier x (h x (by simp))
  | [] => decide
  | x :: y :: rest =>
      have hz : ∀ s ∈ (x :: y :: rest).map quoteIdentifier, countC ('?') s = 0 := by
        intro s hs
        obtain ⟨seg, hseg, rfl⟩ := List.mem_map.mp hs
        exact countC_q_quoteIdentifier seg (h seg hseg)
      rw [countC_sjoin_zero ('?') (".") (by decide)]
      exact List.sum_eq_zero (by
        intro i hi
        obtain ⟨s, hs, rfl⟩ := List.mem_map.mp hi
        exact hz s hs)

/-! Theorems for the identifier normalizer. -/

theorem quoteIdentifier_of_quoted (s : String) (hne : ¬ s.data = [])
    (h : isQuotedId s = true) : quoteIdentifier s = s := by
  unfold quoteIdentifier
  rw [if_neg hne, if_pos h]

/-- C3.  Identifier normalization is idempotent: quoting an
already-normalized identifier returns it unchanged, i.e.
`quoteIdentifier (quoteIdentifier x) = quoteIdentifier x` for every
string `x`. -/
theorem C3_quoteIdentifier_idempotent (s : String) :
    quoteIdentifier (quoteIdentifier s) = quoteIdentifier s := by
  have key : quoteIdentifier s = s ∨
      (¬ (quoteIdentifier s).data = [] ∧ isQuotedId (quoteIdentifier s) = true) := by
    unfold quoteIdentifier
    split_ifs with h1 h2 h3
    · left; rfl
    · left; rfl
    · right
      refine ⟨by simp, ?_⟩
      have hdata : (String.mk ('"' :: (escQuotes s.data ++ ['"']))).data
          = '"' :: (escQuotes s.data ++ ['"']) := rfl
      simp only [isQuotedId, hdata, List.head?_cons]
      have hsplit : ('"' :: (escQuotes s.data ++ ['"'])) = ('"' :: escQuotes s.data) ++ ['"'] := by
        simp
      rw [hsplit, List.getLast?_concat]
      simp
    · left; rfl
  rcases key with h | ⟨h1, h2⟩
  · rw [h]; exact h
  · exact quoteIdentifier_of_quoted _ h1 h2

/-! Theorems for the pagination compiler. -/

theorem digitChar_isDigit (n : Nat) : isDigitB (digitChar n) = true := by
  unfold digitChar
  split_ifs <;> decide

theorem natToStrAux_digits : ∀ fuel n : Nat, ∀ c ∈ natToStrAux fuel n, isDigitB c = true
  | 0, n, c => by simp [natToStrAux]
  | fuel + 1, n, c => by
      simp only [natToStrAux]
      split_ifs
      · intro hc
        simp at hc
        subst hc
        exact digitChar_isDigit n
      · intro hc
        rcases List.mem_append.mp hc with h | h
        · exact natToStrAux_digits fuel (n / 10) c h
        · simp at h
          subst h
          exact digitChar_isDigit n

theorem intToStr_chars (i : Int) (c : Char) (h : c ∈ (intToStr i).data) :
    c = '-' ∨ isDigitB c = true := by
  unfold intToStr at h
  split_ifs at h
  · rw [String.data_append] at h
    rcases List.mem_append.mp h with h1 | h1
    · left
      simpa using h1
    · right
      exact natToStrAux_digits _ _ c h1
  · right
    exact natToStrAux_digits _ _ c h

theorem no_LIMIT_in_offsetPart (m : Int) :
    ¬ ("LIMIT".data <:+: ("OFFSET " ++ intToStr m).data) := by
  intro hin
  have hL : ('L' : Char) ∈ ("OFFSET " ++ intToStr m).data := hin.subset (by decide)
  rw [String.data_append] at hL
  rcases List.mem_append.mp hL with h | h
  · revert h
    decide
  · rcases intToStr_chars m 'L' h with h1 | h1
    · exact absurd h1 (by decide)
    · exact absurd h1 (by decide)

theorem no_OFFSET_in_limitPart (n : Int) :
    ¬ ("OFFSET".data <:+: ("LIMIT " ++ intToStr n).data) := by
  intro hin
  have hO : ('O' : Char) ∈ ("LIMIT " ++ intToStr n).data := hin.subset (by decide)
  rw [String.data_append] at hO
  rcases List.mem_append.mp hO with h | h
  · revert h
    decide
  · rcases intToStr_chars n 'O' h with h1 | h1
    · exact absurd h1 (by decide)
    · exact absurd h1 (by decide)

theorem not_infix_nil_LIMIT : ¬ ("LIMIT".data <:+: ("" : String).data) := by
  intro hin
  have := List.sublist_nil.mp hin.sublist
  exact absurd this (by decide)

theorem not_infix_nil_OFFSET : ¬ ("OFFSET".data <:+: ("" : String).data) := by
  intro hin
  have := List.sublist_nil.mp hin.sublist
  exact absurd this (by decide)

theorem LIMIT_starts (x : String) : "LIMIT".data <:+: ("LIMIT " ++ x).data := by
  have hd : ("LIMIT " ++ x).data = "LIMIT".data ++ (' ' :: x.data) := by
    rw [String.data_append]
    rfl
  rw [hd]
  exact (List.prefix_append _ _).isInfix

theorem OFFSET_starts (x : String) : "OFFSET".data <:+: ("OFFSET " ++ x).data := by
  have hd : ("OFFSET " ++ x).data = "OFFSET".data ++ (' ' :: x.data) := by
    rw [String.data_append]
    rfl
  rw [hd]
  exact (List.prefix_append _ _).isInfix

theorem infix_of_infix_right (a b : String) (l : List Char) (h : l <:+: b.data) :
    l <:+: (a ++ b).data := by
  rw [String.data_append]
  exact h.trans (List.suffix_append a.data b.data).isInfix

theorem tp_nn : translatePagination none none = "" := by decide

theorem tp_sn (n : Int) (hn : 0 ≤ n) :
    translatePagination (some n) none = "LIMIT " ++ intToStr n := by
  simp [translatePagination, sjoin, hn]

theorem tp_sn_neg (n : Int) (hn : ¬ 0 ≤ n) : translatePagination (some n) none = "" := by
  simp [translatePagination, sjoin, hn]

theorem tp_ns (m : Int) (hm : 0 < m) :
    translatePagination none (some m) = "OFFSET " ++ intToStr m := by
  simp [translatePagination, sjoin, hm]

theorem tp_ns_neg (m : Int) (hm : ¬ 0 < m) : translatePagination none (some m) = "" := by
  simp [translatePagination, sjoin, hm]

theorem tp_ss (n m : Int) (hn : 0 ≤ n) (hm : 0 < m) :
    translatePagination (some n) (some m)
      = "LIMIT " ++ intToStr n ++ " " ++ ("OFFSET " ++ intToStr m) := by
  simp [translatePagination, sjoin, hn, hm]

theorem tp_ss_l (n m : Int) (hn : 0 ≤ n) (hm : ¬ 0 < m) :
    translatePagination (some n) (some m) = "LIMIT " ++ intToStr n := by
  simp [translatePagination, sjoin, hn, hm]

theorem tp_ss_o (n m : Int) (hn : ¬ 0 ≤ n) (hm : 0 < m) :
    translatePagination (some n) (some m) = "OFFSET " ++ intToStr m := by
  simp [translatePagination, sjoin, hn, hm]

theorem tp_ss_neg (n m : Int) (hn : ¬ 0 ≤ n) (hm : ¬ 0 < m) :
    translatePagination (some n) (some m) = "" := by
  simp [translatePagination, sjoin, hn, hm]

theorem combined_limit_split (n m : Int) :
    "LIMIT " ++ intToStr n ++ " " ++ ("OFFSET " ++ intToStr m)
      = ("LIMIT " ++ intToStr n ++ " ") ++ ("OFFSET " ++ intToStr m) := by
  simp [String.append_assoc]

/-- C4.  The pagination compiler emits a LIMIT part iff a non-negative
limit is supplied, an OFFSET part iff a strictly positive offset is
supplied, the empty string when both are absent; `limit=10, offset=20`
yields `LIMIT 10 OFFSET 20` and two absent values yield the empty
clause. -/
theorem C4_translatePagination (top skip : Option Int) :
    (("LIMIT".data <:+: (translatePagination top skip).data) ↔ ∃ n, top = some n ∧ 0 ≤ n) ∧
    (("OFFSET".data <:+: (translatePagination top skip).data) ↔ ∃ m, skip = some m ∧ 0 < m) ∧
    (top = none → skip = none → translatePagination top skip = "") ∧
    translatePagination (some 10) (some 20) = "LIMIT 10 OFFSET 20" ∧
    translatePagination none none = "" := by
  refine ⟨?_, ?_, ?_, by decide, by decide⟩
  · constructor
    · intro h
      rcases top with _ | n
      · exfalso
        rcases skip with _ | m
        · rw [tp_nn] at h
          exact not_infix_nil_LIMIT h
        · by_cases hm : 0 < m
          · rw [tp_ns m hm] at h
            exact no_LIMIT_in_offsetPart m h
          · rw [tp_ns_neg m hm] at h
            exact not_infix_nil_LIMIT h
      · by_cases hn : 0 ≤ n
        · exact ⟨n, rfl, hn⟩
        · exfalso
          rcases skip with _ | m
          · rw [tp_sn_neg n hn] at h
            exact not_infix_nil_LIMIT h
          · by_cases hm : 0 < m
            · rw [tp_ss_o n m hn hm] at h
              exact no_LIMIT_in_offsetPart m h
            · rw [tp_ss_neg n m hn hm] at h
              exact not_infix_nil_LIMIT h
    · rintro ⟨n, rfl, hn⟩
      rcases skip with _ | m
      · rw [tp_sn n hn]
        exact LIMIT_starts (intToStr n)
      · by_cases hm : 0 < m
        · rw [tp_ss n m hn hm, combined_limit_split]
          have h2 : ("LIMIT " ++ intToStr n ++ " ") ++ ("OFFSET " ++ intToStr m)
              = "LIMIT " ++ (intToStr n ++ " " ++ ("OFFSET " ++ intToStr m)) := by
            simp [String.append_assoc]
          rw [h2]
          exact LIMIT_starts _
        · rw [tp_ss_l n m hn hm]
          exact LIMIT_starts (intToStr n)
  · constructor
    · intro h
      rcases skip with _ | m
      · exfalso
        rcases top with _ | n
        · rw [tp_nn] at h
          exact not_infix_nil_OFFSET h
        · by_cases hn : 0 ≤ n
          · rw [tp_sn n hn] at h
            exact no_OFFSET_in_limitPart n h
          · rw [tp_sn_neg n hn] at h
            exact not_infix_nil_OFFSET h
      · by_cases hm : 0 < m
        · exact ⟨m, rfl, hm⟩
        · exfalso
          rcases top with _ | n
          · rw [tp_ns_neg m hm] at h
            exact not_infix_nil_OFFSET h
          · by_cases hn : 0 ≤ n
            · rw [tp_ss_l n m hn hm] at h
              exact no_OFFSET_in_limitPart n h
            · rw [tp_ss_neg n m hn hm] at h
              exact not_infix_nil_OFFSET h
    · rintro ⟨m, rfl, hm⟩
      rcases top with _ | n
      · rw [tp_ns m hm]
        exact OFFSET_starts (intToStr m)
      · by_cases hn : 0 ≤ n
        · rw [tp_ss n m hn hm, combined_limit_split]
          exact infix_of_infix_right _ _ _ (OFFSET_starts (intToStr m))
        · rw [tp_ss_o n m hn hm]
          exact OFFSET_starts (intToStr m)
  · rintro rfl rfl
    decide

/-- C4 witness: the theorem applied at limit 10, offset 20, plus the
concrete empty-clause evaluation. -/
theorem C4_translatePagination_witness :
    ("LIMIT".data <:+: (translatePagination (some 10) (some 20)).data) ∧
    translatePagination (some 10) (some 20) = "LIMIT 10 OFFSET 20" := by
  refine ⟨?_, (C4_translatePagination (some 10) (some 20)).2.2.2.1⟩
  exact (C4_translatePagination (some 10) (some 20)).1.mpr ⟨10, rfl, by norm_num⟩

/-! Theorems for the temporal decorator. -/

/-- C7.  Default as-of-now temporal decoration appends the conjunction
validFrom le CURRENT_TIMESTAMP() AND CURRENT_TIMESTAMP() lt validTo (the
target dialect's current-time function, written NOW() in the spec); a
non-empty existing predicate is parenthesized and ANDed in front rather
than replaced; an empty predicate yields exactly the temporal
conjunction with no leading parentheses. -/
theorem C7_addTemporalConditions (w vf vt : String) :
    addTemporalConditions ("") ⟨vf, vt⟩ none
      = quoteIdentifier vf ++ " <= CURRENT_TIMESTAMP() AND CURRENT_TIMESTAMP() < " ++ quoteIdentifier vt
    ∧ (¬ w = "" → addTemporalConditions w ⟨vf, vt⟩ none
      = "(" ++ w ++ ") AND " ++ quoteIdentifier vf ++ " <= CURRENT_TIMESTAMP() AND CURRENT_TIMESTAMP() < " ++ quoteIdentifier vt) := by
  constructor
  · apply String.ext
    simp [addTemporalConditions, sjoin, String.data_append, List.append_assoc]
  · intro hw
    apply String.ext
    simp [addTemporalConditions, sjoin, hw, String.data_append, List.append_assoc]

/-- C7 witness: decorating the predicate X = 1 over fields validFrom and
validTo. -/
theorem C7_addTemporalConditions_witness :
    ¬ ("X = 1" : String) = "" ∧
    addTemporalConditions ("X = 1") ⟨"validFrom", "validTo"⟩ none
      = "(X = 1) AND \"validFrom\" <= CURRENT_TIMESTAMP() AND CURRENT_TIMESTAMP() < \"validTo\"" := by
  refine ⟨by decide, ?_⟩
  rw [(C7_addTemporalConditions ("X = 1") ("validFrom") ("validTo")).2 (by decide)]
  decide

/-! Theorems for the end-to-end predicate scenario and WHERE-path
compilation. -/

/-- C2.  Evaluation of the predicate tree of end-to-end scenario 1: the
code renders the lowercase identifier quoted, producing a fragment that
differs from the unquoted form asserted by the spec and by the
repository's own unit test — the parameter list is [20] as stated. -/
theorem C2_price_predicate_eval :
    translateFilter (EL [Expr.ref ["price"], Expr.op ("<"), Expr.val (Value.vnum 20)]) []
      = ("\"price\" < ?", [Value.vnum 20]) := by
  simp only [translateFilter, translateExpression, EL, tParts_cons, tParts_nil,
    tElem_ref, tElem_op, tElem_val, translateVal]
  rfl

/-- A SELECT over Books with a WHERE predicate navigating the path
author.country (no expansions requested). -/
def wherePathSelect : SelectCQN :=
  ⟨⟨some ["Books"], none⟩,
   some [⟨some ["title"], none, none, none, none, none, none⟩],
   EL [Expr.ref ["author", "country"], Expr.op ("="), Expr.val (Value.vstr ("US"))],
   [], ExprList.nil, [], none, false⟩

/-- Credentials as used by the repository's unit tests. -/
def testCredentials : SnowflakeCredentials :=
  ⟨some ("TEST_DB"), some ("TEST_SCHEMA")⟩

set_option maxRecDepth 4000 in
/-- C8.  Evaluation at the failing input: a WHERE predicate containing
the association path author.country compiles to a dotted quoted
reference with no join of any kind in the statement — the INNER JOIN
the spec (and docs/TEMPORAL.md) describe is never generated. -/
theorem C8_where_path_no_join :
    translateSelect wherePathSelect testCredentials []
      = Except.ok ("SELECT \"title\" FROM TEST_DB.TEST_SCHEMA.\"Books\" WHERE \"author\".\"country\" = ?",
          [Value.vstr ("US")])
    ∧ ¬ ("JOIN".data <:+:
        ("SELECT \"title\" FROM TEST_DB.TEST_SCHEMA.\"Books\" WHERE \"author\".\"country\" = ?" : String).data) := by
  constructor
  · have hw : translateFilter (EL [Expr.ref ["author", "country"], Expr.op ("="),
        Expr.val (Value.vstr ("US"))]) []
        = ("\"author\".\"country\" = ?", [Value.vstr ("US")]) := by
      simp only [translateFilter, translateExpression, EL, tParts_cons, tParts_nil,
        tElem_ref, tElem_op, tElem_val, translateVal]
      rfl
    simp only [translateSelect, wherePathSelect, translateFrom]
    rw [hw]
    rfl
  · decide

/-! Theorems for the MERGE generator. -/

/-- The ON conjunction of `generateMerge` (its `onConditions` local). -/
def mergeOn (keys : List String) : String :=
  sjoin (" AND ") ((keys.map quoteIdentifier).map (fun key =>
    "target." ++ key ++ " = source." ++ key))

/-- The UPDATE SET clause list of `generateMerge` (its
`updateSetClauses` local), ranging over the non-key columns. -/
def mergeUpdateSet (keys : List String) (data : List (String × Value)) : List String :=
  ((objKeys data).filter (fun col => !(keys.contains col))).map (fun col =>
    quoteIdentifier col ++ " = source." ++ quoteIdentifier col)

/-- The quoted full column list of `generateMerge` (its `quotedCols`
local). -/
def mergeInsertCols (data : List (String × Value)) : List String :=
  (objKeys data).map quoteIdentifier

theorem generateMerge_eq (t : String) (keys : List String) (data : List (String × Value))
    (creds : SnowflakeCredentials) :
    generateMerge t keys data creds =
      ("MERGE INTO " ++ qualifyName t creds true ++ " AS target\n" ++
        "USING (SELECT " ++ sjoin (", ") ((mergeInsertCols data).map (fun col => "? AS " ++ col)) ++ ") AS source\n" ++
        "ON " ++ mergeOn keys ++ "\n" ++
        (if (mergeUpdateSet keys data).isEmpty then ""
         else "WHEN MATCHED THEN UPDATE SET " ++ sjoin (", ") (mergeUpdateSet keys data) ++ "\n") ++
        "WHEN NOT MATCHED THEN INSERT (" ++ sjoin (", ") (mergeInsertCols data) ++ ") VALUES (" ++
          sjoin (", ") ((mergeInsertCols data).map (fun col => "source." ++ col)) ++ ")",
        (objKeys data).map (objGet data)) := rfl

theorem infix_append_left (a b : String) (l : List Char) (h : l <:+: a.data) :
    l <:+: (a ++ b).data := by
  rw [String.data_append]
  exact h.trans (List.prefix_append a.data b.data).isInfix

theorem infix_of_parts {l hay : List Char} (mid pre post : List Char)
    (h : l <:+: mid) (he : hay = pre ++ (mid ++ post)) : l <:+: hay := by
  rcases h with ⟨s, t, hm⟩
  exact ⟨pre ++ s, t ++ post, by rw [he, ← hm]; simp [List.append_assoc]⟩

theorem mem_sjoin_sub (sep : String) (x : String) :
    ∀ l : List String, x ∈ l → x.data <:+: (sjoin sep l).data
  | [], hx => absurd hx (by simp)
  | [y], hx => by
      have : x = y := by simpa using hx
      subst this
      exact List.infix_refl _
  | y :: z :: rest, hx => by
      rcases List.mem_cons.mp hx with h | h
      · subst h
        show x.data <:+: (x ++ sep ++ sjoin sep (z :: rest)).data
        exact infix_append_left _ _ _ (infix_append_left _ _ _ (List.infix_refl _))
      · show x.data <:+: (y ++ sep ++ sjoin sep (z :: rest)).data
        exact infix_of_infix_right _ _ _ (mem_sjoin_sub sep x (z :: rest) h)

/-- C6.  The generated MERGE binds every column value as a parameter,
contains a target-equals-source ON condition for every key column, a
WHEN MATCHED THEN UPDATE SET clause over exactly the non-key columns
(present iff there is a non-key column), a WHEN NOT MATCHED THEN INSERT
clause over all columns, and omits the UPDATE branch entirely when every
column is a key. -/
theorem C6_generateMerge (t : String) (keys : List String) (data : List (String × Value))
    (creds : SnowflakeCredentials) :
    ((generateMerge t keys data creds).2 = (objKeys data).map (objGet data))
  ∧ (∀ k ∈ keys,
      ("target." ++ quoteIdentifier k ++ " = source." ++ quoteIdentifier k).data <:+:
        (generateMerge t keys data creds).1.data)
  ∧ (∀ c, c ∈ (objKeys data).filter (fun col => !(keys.contains col)) ↔
      (c ∈ objKeys data ∧ c ∉ keys))
  ∧ (¬ mergeUpdateSet keys data = [] →
      ("WHEN MATCHED THEN UPDATE SET " ++ sjoin (", ") (mergeUpdateSet keys data)).data <:+:
        (generateMerge t keys data creds).1.data)
  ∧ (("WHEN NOT MATCHED THEN INSERT (" ++ sjoin (", ") (mergeInsertCols data) ++ ")").data <:+:
      (generateMerge t keys data creds).1.data)
  ∧ (mergeUpdateSet keys data = [] →
      (generateMerge t keys data creds).1 =
        "MERGE INTO " ++ qualifyName t creds true ++ " AS target\n" ++
        "USING (SELECT " ++ sjoin (", ") ((mergeInsertCols data).map (fun col => "? AS " ++ col)) ++ ") AS source\n" ++
        "ON " ++ mergeOn keys ++ "\n" ++
        "WHEN NOT MATCHED THEN INSERT (" ++ sjoin (", ") (mergeInsertCols data) ++ ") VALUES (" ++
          sjoin (", ") ((mergeInsertCols data).map (fun col => "source." ++ col)) ++ ")") := by
  refine ⟨rfl, ?_, ?_, ?_, ?_, ?_⟩
  · intro k hk
    have hmem : ("target." ++ quoteIdentifier k ++ " = source." ++ quoteIdentifier k)
        ∈ (keys.map quoteIdentifier).map (fun key => "target." ++ key ++ " = source." ++ key) :=
      List.mem_map.mpr ⟨quoteIdentifier k, List.mem_map.mpr ⟨k, hk, rfl⟩, rfl⟩
    have hon := mem_sjoin_sub (" AND ") _ _ hmem
    rw [generateMerge_eq]
    refine infix_of_parts (mergeOn keys).data
      ("MERGE INTO " ++ qualifyName t creds true ++ " AS target\n" ++
        "USING (SELECT " ++ sjoin (", ") ((mergeInsertCols data).map (fun col => "? AS " ++ col)) ++ ") AS source\n" ++
        "ON ").data
      ("\n" ++
        (if (mergeUpdateSet keys data).isEmpty then ""
         else "WHEN MATCHED THEN UPDATE SET " ++ sjoin (", ") (mergeUpdateSet keys data) ++ "\n") ++
        "WHEN NOT MATCHED THEN INSERT (" ++ sjoin (", ") (mergeInsertCols data) ++ ") VALUES (" ++
          sjoin (", ") ((mergeInsertCols data).map (fun col => "source." ++ col)) ++ ")").data
      hon ?_
    simp [String.data_append, List.append_assoc]
  · intro c
    simp [objKeys]
  · intro hne
    have hempty : (mergeUpdateSet keys data).isEmpty = false := by
      cases h2 : mergeUpdateSet keys data with
      | nil => exact absurd h2 hne
      | cons a l => rfl
    have hfrag : ("WHEN MATCHED THEN UPDATE SET " ++ sjoin (", ") (mergeUpdateSet keys data)).data
        <:+: ("WHEN MATCHED THEN UPDATE SET " ++ sjoin (", ") (mergeUpdateSet keys data) ++ "\n").data :=
      infix_append_left _ _ _ (List.infix_refl _)
    rw [generateMerge_eq]
    refine infix_of_parts
      ("WHEN MATCHED THEN UPDATE SET " ++ sjoin (", ") (mergeUpdateSet keys data) ++ "\n").data
      ("MERGE INTO " ++ qualifyName t creds true ++ " AS target\n" ++
        "USING (SELECT " ++ sjoin (", ") ((mergeInsertCols data).map (fun col => "? AS " ++ col)) ++ ") AS source\n" ++
        "ON " ++ mergeOn keys ++ "\n").data
      ("WHEN NOT MATCHED THEN INSERT (" ++ sjoin (", ") (mergeInsertCols data) ++ ") VALUES (" ++
          sjoin (", ") ((mergeInsertCols data).map (fun col => "source." ++ col)) ++ ")").data
      hfrag ?_
    rw [hempty]
    simp [String.data_append, List.append_assoc]
  · have hfrag : ("WHEN NOT MATCHED THEN INSERT (" ++ sjoin (", ") (mergeInsertCols data) ++ ")").data
        <+: ("WHEN NOT MATCHED THEN INSERT (" ++ sjoin (", ") (mergeInsertCols data) ++ ") VALUES (" ++
          sjoin (", ") ((mergeInsertCols data).map (fun col => "source." ++ col)) ++ ")").data := by
      refine ⟨(" VALUES (" ++ sjoin (", ") ((mergeInsertCols data).map (fun col => "source." ++ col)) ++ ")").data, ?_⟩
      simp [String.data_append, List.append_assoc]
    rw [generateMerge_eq]
    refine infix_of_parts
      ("WHEN NOT MATCHED THEN INSERT (" ++ sjoin (", ") (mergeInsertCols data) ++ ") VALUES (" ++
          sjoin (", ") ((mergeInsertCols data).map (fun col => "source." ++ col)) ++ ")").data
      ("MERGE INTO " ++ qualifyName t creds true ++ " AS target\n" ++
        "USING (SELECT " ++ sjoin (", ") ((mergeInsertCols data).map (fun col => "? AS " ++ col)) ++ ") AS source\n" ++
        "ON " ++ mergeOn keys ++ "\n" ++
        (if (mergeUpdateSet keys data).isEmpty then ""
         else "WHEN MATCHED THEN UPDATE SET " ++ sjoin (", ") (mergeUpdateSet keys data) ++ "\n")).data
      [] hfrag.isInfix ?_
    simp [String.data_append, List.append_assoc]
  · intro hemp
    rw [generateMerge_eq]
    have hempty : (mergeUpdateSet keys data).isEmpty = true := by
      simp [hemp]
    rw [hempty]
    apply String.ext
    simp [String.data_append, List.append_assoc]

/-- C6 witness: the end-to-end merge scenario — record id, title, price
with key id — evaluated concretely through the theorem and directly. -/
theorem C6_generateMerge_witness :
    (¬ mergeUpdateSet ["id"] [("id", Value.vstr ("1")), ("title", Value.vstr ("T")),
        ("price", Value.vnum (999/100))] = []) ∧
    (("WHEN MATCHED THEN UPDATE SET " ++ sjoin (", ") (mergeUpdateSet ["id"]
        [("id", Value.vstr ("1")), ("title", Value.vstr ("T")), ("price", Value.vnum (999/100))])).data <:+:
      (generateMerge ("Books") ["id"] [("id", Value.vstr ("1")), ("title", Value.vstr ("T")),
        ("price", Value.vnum (999/100))] testCredentials).1.data) ∧
    (("target." ++ quoteIdentifier ("id") ++ " = source." ++ quoteIdentifier ("id")).data <:+:
      (generateMerge ("Books") ["id"] [("id", Value.vstr ("1")), ("title", Value.vstr ("T")),
        ("price", Value.vnum (999/100))] testCredentials).1.data) ∧
    mergeUpdateSet ["id"] [("id", Value.vstr ("1")), ("title", Value.vstr ("T")),
        ("price", Value.vnum (999/100))]
      = ["\"title\" = source.\"title\"", "\"price\" = source.\"price\""] := by
  refine ⟨by decide, ?_, ?_, by decide⟩
  · exact (C6_generateMerge ("Books") ["id"] _ testCredentials).2.2.2.1 (by decide)
  · exact (C6_generateMerge ("Books") ["id"] _ testCredentials).2.1 ("id") (by simp)

/-! Theorems for the batch INSERT form. -/

/-- C9 counterexample input: a batch whose two records do not share the
same key set. -/
def mismatchedBatch : InsertCQN :=
  ⟨"Books", some [[("a", Value.vnum 1)], [("b", Value.vnum 2)]], none, none, none⟩

/-- C9 counterexample evaluation: the mismatched batch does not fail —
the column list comes from the first record only and the second record's
missing key binds undefined, silently coerced. -/
theorem C9_mismatched_batch_not_rejected :
    translateInsert mismatchedBatch testCredentials []
      = Except.ok ("INSERT INTO TEST_DB.TEST_SCHEMA.\"Books\" (\"a\") VALUES (?), (?)",
          [Value.vnum 1, Value.vundef]) := rfl

theorem length_flatMap_const {α : Type} (cols : List String) (f : α → String → Value) :
    ∀ l : List α, (l.flatMap (fun e => cols.map (f e))).length = l.length * cols.length
  | [] => by simp
  | e :: rest => by
      simp [List.flatMap_cons, length_flatMap_const cols f rest, Nat.succ_mul, Nat.add_comm]

/-- C9 amended.  The batch-of-records INSERT derives its column list
from the first record's keys and emits one parameter-bound placeholder
tuple per record; records with differing key sets are not rejected —
each record binds, for every first-record column, its value at that
column or undefined when absent, with no error raised. -/
theorem C9_translateInsert_entries (tbl : String) (first : List (String × Value))
    (rest : List (List (String × Value))) (creds : SnowflakeCredentials) (ps : List Value) :
    translateInsert ⟨tbl, some (first :: rest), none, none, none⟩ creds ps
      = Except.ok ("INSERT INTO " ++ qualifyName tbl creds true ++ " (" ++
          sjoin (", ") ((objKeys first).map quoteIdentifier) ++ ") VALUES " ++
          sjoin (", ") ((first :: rest).map (fun _ =>
            "(" ++ sjoin (", ") ((objKeys first).map (fun _ => "?")) ++ ")")),
          ps ++ (first :: rest).flatMap (fun entry => (objKeys first).map (objGet entry)))
  ∧ ((first :: rest).flatMap (fun entry => (objKeys first).map (objGet entry))).length
      = (rest.length + 1) * (objKeys first).length := by
  constructor
  · rfl
  · have := length_flatMap_const (objKeys first) (fun e k => objGet e k) (first :: rest)
    simpa using this

/-- C9 witness: the amended theorem applied to the mismatched batch,
with the bindings evaluated. -/
theorem C9_translateInsert_entries_witness :
    translateInsert ⟨"Books", some [[("a", Value.vnum 1)], [("b", Value.vnum 2)]], none, none, none⟩
        testCredentials []
      = Except.ok ("INSERT INTO " ++ qualifyName ("Books") testCredentials true ++ " (" ++
          sjoin (", ") ((objKeys [("a", Value.vnum 1)]).map quoteIdentifier) ++ ") VALUES " ++
          sjoin (", ") (([[("a", Value.vnum 1)], [("b", Value.vnum 2)]].map (fun _ =>
            "(" ++ sjoin (", ") ((objKeys [("a", Value.vnum 1)]).map (fun _ => "?")) ++ ")"))),
          [] ++ [[("a", Value.vnum 1)], [("b", Value.vnum 2)]].flatMap
            (fun entry => (objKeys [("a", Value.vnum 1)]).map (objGet entry))) :=
  (C9_translateInsert_entries ("Books") [("a", Value.vnum 1)] [[("b", Value.vnum 2)]]
    testCredentials []).1

/-! Theorems for the literal-parameter invariant of the predicate
compiler. -/

mutual
/-- Whether a token tree contains no function-call token. -/
def funcFreeE : Expr → Bool
  | Expr.op _ => true
  | Expr.ref _ => true
  | Expr.val _ => true
  | Expr.func _ _ => false
  | Expr.xpr xs => funcFreeL xs
  | Expr.list xs => funcFreeL xs

/-- Whether a token sequence contains no function-call token. -/
def funcFreeL : ExprList → Bool
  | ExprList.nil => true
  | ExprList.cons e rest => funcFreeE e && funcFreeL rest
end

mutual
/-- The parameters a token is expected to append: a non-null direct
literal appends itself, a null direct literal appends nothing,
sub-expressions and lists recurse (function tokens are outside the
fragment this specification covers). -/
def litParamsE : Expr → List Value
  | Expr.op _ => []
  | Expr.ref _ => []
  | Expr.val v => (match v with | Value.vnull => [] | w => [w])
  | Expr.func _ _ => []
  | Expr.xpr xs => litParamsL xs
  | Expr.list xs => litParamsItems xs

/-- Expected parameters of a token sequence, left to right. -/
def litParamsL : ExprList → List Value
  | ExprList.nil => []
  | ExprList.cons e rest => litParamsE e ++ litParamsL rest

/-- Expected parameters of an IN-list's items: every literal item (null
included) appends itself; other items recurse as tokens. -/
def litParamsItems : ExprList → List Value
  | ExprList.nil => []
  | ExprList.cons item rest =>
      (match item with
       | Expr.val v => [v]
       | e => litParamsE e) ++ litParamsItems rest
end

mutual
/-- Whether no operator string or reference segment of a token contains
a question mark (so every question mark of the output is a
placeholder). -/
def noQE : Expr → Bool
  | Expr.op s => countC ('?') s == 0
  | Expr.ref r => r.all (fun seg => countC ('?') seg == 0)
  | Expr.val _ => true
  | Expr.func _ args => noQL args
  | Expr.xpr xs => noQL xs
  | Expr.list xs => noQL xs

/-- Question-mark freedom of a token sequence. -/
def noQL : ExprList → Bool
  | ExprList.nil => true
  | ExprList.cons e rest => noQE e && noQL rest
end

/-- Total placeholder count of a parts list. -/
def partsQ (l : List String) : Nat :=
  (l.map (countC ('?'))).sum

theorem litParamsItems_cons_other (item : Expr) (rest : ExprList)
    (hv : isValTok item = false) :
    litParamsItems (ExprList.cons item rest) = litParamsE item ++ litParamsItems rest := by
  cases item <;> simp_all [isValTok, litParamsItems]

theorem countC_q_sjoin (l : List String) (sep : String) (hsep : countC ('?') sep = 0) :
    countC ('?') (sjoin sep l) = partsQ l := by
  rw [countC_sjoin_zero ('?') sep hsep l]
  rfl

set_option maxHeartbeats 1000000 in
theorem C1_aux (n : Nat) :
    (∀ e : Expr, sizeOf e ≤ n → funcFreeE e = true → noQE e = true → ∀ ps : List Value,
      (translateElement e ps).2 = ps ++ litParamsE e ∧
      countC ('?') (translateElement e ps).1 = (litParamsE e).length) ∧
    (∀ xs : ExprList, sizeOf xs ≤ n → funcFreeL xs = true → noQL xs = true → ∀ ps : List Value,
      (translateParts xs ps).2 = ps ++ litParamsL xs ∧
      partsQ (translateParts xs ps).1 = (litParamsL xs).length) ∧
    (∀ xs : ExprList, sizeOf xs ≤ n → funcFreeL xs = true → noQL xs = true → ∀ ps : List Value,
      (translateListItems xs ps).2 = ps ++ litParamsItems xs ∧
      partsQ (translateListItems xs ps).1 = (litParamsItems xs).length) := by
  induction n using Nat.strong_induction_on with
  | _ n ih =>
  refine ⟨?_, ?_, ?_⟩
  · intro e hsize hf hq ps
    cases e with
    | op s =>
        have hq0 : countC ('?') s = 0 := by simpa [noQE] using hq
        refine ⟨by simp [tElem_op, litParamsE], ?_⟩
        simp [tElem_op, litParamsE, countC_q_translateOperator s hq0]
    | ref r =>
        have hq0 : ∀ seg ∈ r, countC ('?') seg = 0 := by
          simpa [noQE] using hq
        refine ⟨by simp [tElem_ref, litParamsE], ?_⟩
        simp [tElem_ref, litParamsE, countC_q_translateRef r hq0]
    | val v =>
        have hq1 : countC ('?') ("?") = 1 := by decide
        have hq0 : countC ('?') ("NULL") = 0 := by decide
        cases v <;> simp [tElem_val, translateVal, litParamsE, hq1, hq0]
    | func nm args => simp [funcFreeE] at hf
    | xpr xs =>
        have hlt : sizeOf xs < n := by
          have : sizeOf xs < sizeOf (Expr.xpr xs) := by
            simp only [Expr.xpr.sizeOf_spec]
            omega
          omega
        have hsub := (ih (sizeOf xs) hlt).2.1 xs (Nat.le_refl _)
          (by simpa [funcFreeE] using hf) (by simpa [noQE] using hq) ps
        have hop : countC ('?') ("(") = 0 := by decide
        have hcp : countC ('?') (")") = 0 := by decide
        have hsp : countC ('?') (" ") = 0 := by decide
        refine ⟨by simp [tElem_xpr, litParamsE, hsub.1], ?_⟩
        simp [tElem_xpr, litParamsE, countC_append, hop, hcp,
          countC_q_sjoin _ _ hsp, hsub.2]
    | list xs =>
        have hlt : sizeOf xs < n := by
          have : sizeOf xs < sizeOf (Expr.list xs) := by
            simp only [Expr.list.sizeOf_spec]
            omega
          omega
        have hsub := (ih (sizeOf xs) hlt).2.2 xs (Nat.le_refl _)
          (by simpa [funcFreeE] using hf) (by simpa [noQE] using hq) ps
        have hop : countC ('?') ("(") = 0 := by decide
        have hcp : countC ('?') (")") = 0 := by decide
        have hsp : countC ('?') (", ") = 0 := by decide
        refine ⟨by simp [tElem_list, litParamsE, hsub.1], ?_⟩
        simp [tElem_list, litParamsE, countC_append, hop, hcp,
          countC_q_sjoin _ _ hsp, hsub.2]
  · intro xs hsize hf hq ps
    cases xs with
    | nil => simp [tParts_nil, litParamsL, partsQ]
    | cons e rest =>
        have hfe : funcFreeE e = true := by
          have := (Bool.and_eq_true _ _).mp (by simpa [funcFreeL] using hf)
          exact this.1
        have hfr : funcFreeL rest = true := by
          have := (Bool.and_eq_true _ _).mp (by simpa [funcFreeL] using hf)
          exact this.2
        have hqe : noQE e = true := by
          have := (Bool.and_eq_true _ _).mp (by simpa [noQL] using hq)
          exact this.1
        have hqr : noQL rest = true := by
          have := (Bool.and_eq_true _ _).mp (by simpa [noQL] using hq)
          exact this.2
        have hlte : sizeOf e < n := by
          have : sizeOf e < sizeOf (ExprList.cons e rest) := by
            simp only [ExprList.cons.sizeOf_spec]
            omega
          omega
        have hltr : sizeOf rest < n := by
          have : sizeOf rest < sizeOf (ExprList.cons e rest) := by
            simp only [ExprList.cons.sizeOf_spec]
            omega
          omega
        have he := (ih (sizeOf e) hlte).1 e (Nat.le_refl _) hfe hqe ps
        have hr := (ih (sizeOf rest) hltr).2.1 rest (Nat.le_refl _) hfr hqr
          (translateElement e ps).2
        refine ⟨?_, ?_⟩
        · rw [tParts_cons]
          simp only []
          rw [hr.1, he.1, litParamsL, List.append_assoc]
        · rw [tParts_cons]
          simp only [partsQ, List.map_cons, List.sum_cons, litParamsL, List.length_append]
          have h1 := he.2
          have h2 := hr.2
          simp only [partsQ] at h2
          omega
  · intro xs hsize hf hq ps
    cases xs with
    | nil => simp [tItems_nil, litParamsItems, partsQ]
    | cons item rest =>
        have hfe : funcFreeE item = true := by
          have := (Bool.and_eq_true _ _).mp (by simpa [funcFreeL] using hf)
          exact this.1
        have hfr : funcFreeL rest = true := by
          have := (Bool.and_eq_true _ _).mp (by simpa [funcFreeL] using hf)
          exact this.2
        have hqe : noQE item = true := by
          have := (Bool.and_eq_true _ _).mp (by simpa [noQL] using hq)
          exact this.1
        have hqr : noQL rest = true := by
          have := (Bool.and_eq_true _ _).mp (by simpa [noQL] using hq)
          exact this.2
        have hlte : sizeOf item < n := by
          have : sizeOf item < sizeOf (ExprList.cons item rest) := by
            simp only [ExprList.cons.sizeOf_spec]
            omega
          omega
        have hltr : sizeOf rest < n := by
          have : sizeOf rest < sizeOf (ExprList.cons item rest) := by
            simp only [ExprList.cons.sizeOf_spec]
            omega
          omega
        cases hvt : isValTok item with
        | true =>
            cases item <;> simp [isValTok] at hvt
            case val v =>
            have hr := (ih (sizeOf rest) hltr).2.2 rest (Nat.le_refl _) hfr hqr (ps ++ [v])
            have hq1 : countC ('?') ("?") = 1 := by decide
            refine ⟨?_, ?_⟩
            · rw [tItems_cons_val]
              simp only []
              rw [hr.1, List.append_assoc]
              simp [litParamsItems]
            · rw [tItems_cons_val]
              simp only [partsQ, List.map_cons, List.sum_cons, hq1]
              have h2 := hr.2
              simp only [partsQ] at h2
              rw [h2]
              simp only [litParamsItems, List.singleton_append, List.length_cons]
              omega
        | false =>
            have he := (ih (sizeOf item) hlte).1 item (Nat.le_refl _) hfe hqe ps
            have hr := (ih (sizeOf rest) hltr).2.2 rest (Nat.le_refl _) hfr hqr
              (translateElement item ps).2
            rw [tItems_cons_other item rest ps hvt, litParamsItems_cons_other item rest hvt]
            refine ⟨?_, ?_⟩
            · simp only []
              rw [hr.1, he.1, List.append_assoc]
            · simp only [partsQ, List.map_cons, List.sum_cons, List.length_append]
              have h1 := he.2
              have h2 := hr.2
              simp only [partsQ] at h2
              omega

/-- C1 counterexample.  A null literal inside an IN-list is
parameter-bound (placeholder emitted and null appended), not rendered as
the text NULL with no parameter; and the CONTAINS fall-through
re-translates its first argument, appending two parameter entries for
one literal occurrence while the SQL holds a single placeholder. -/
theorem C1_literal_params_counterexample :
    (translateFilter (EL [Expr.list (EL [Expr.val Value.vnull])]) []
      = ("(?)", [Value.vnull]))
  ∧ ¬ (translateFilter (EL [Expr.list (EL [Expr.val Value.vnull])]) []).2 = []
  ∧ (translateFilter (EL [Expr.func ("contains") (EL [Expr.val (Value.vstr ("a")), Expr.ref ["x"]])]) []
      = ("CONTAINS(?, \"x\")", [Value.vstr ("a"), Value.vstr ("a")]))
  ∧ countC ('?') ("CONTAINS(?, \"x\")") = 1 := by
  refine ⟨?_, ?_, ?_, by decide⟩
  · simp only [translateFilter, translateExpression, EL, tParts_cons, tParts_nil,
      tElem_list, tItems_cons_val, tItems_nil]
    rfl
  · simp only [translateFilter, translateExpression, EL, tParts_cons, tParts_nil,
      tElem_list, tItems_cons_val, tItems_nil]
    simp [sjoin]
  · simp only [translateFilter, translateExpression, EL, tParts_cons, tParts_nil,
      tElem_func, translateFunc, translatePatternFunc, translateGenericFunc,
      tElem_ref, tElem_val, translateVal]
    rfl

/-- C1 amended.  For every function-free predicate token sequence whose
operator strings and reference segments contain no question mark,
compilation appends exactly one parameter entry and emits exactly one
placeholder for each occurrence of a non-null direct literal token and
for each literal (null included) inside an IN-list, entries in
left-to-right order matching the placeholder count; a null literal
occurring as a direct token renders as the text NULL with no parameter
appended. -/
theorem C1_literal_params_amended (xs : ExprList) (ps : List Value)
    (hf : funcFreeL xs = true) (hq : noQL xs = true) :
    ((translateFilter xs ps).2 = ps ++ litParamsL xs
  ∧ countC ('?') ((translateFilter xs ps).1) = (litParamsL xs).length)
  ∧ translateFilter (ExprList.cons (Expr.val Value.vnull) ExprList.nil) ps = ("NULL", ps) := by
  constructor
  · cases xs with
    | nil =>
        refine ⟨by simp [translateFilter, litParamsL], ?_⟩
        simp [translateFilter, litParamsL]
        decide
    | cons e rest =>
        have h := (C1_aux (sizeOf (ExprList.cons e rest))).2.1 (ExprList.cons e rest)
          (Nat.le_refl _) hf hq ps
        have hsp : countC ('?') (" ") = 0 := by decide
        refine ⟨?_, ?_⟩
        · show (translateExpression (ExprList.cons e rest) ps).2 = ps ++ litParamsL (ExprList.cons e rest)
          simp only [translateExpression]
          exact h.1
        · show countC ('?') (translateExpression (ExprList.cons e rest) ps).1
            = (litParamsL (ExprList.cons e rest)).length
          simp only [translateExpression]
          rw [countC_q_sjoin _ _ hsp]
          exact h.2
  · simp only [translateFilter, translateExpression, tParts_cons, tParts_nil,
      tElem_val, translateVal]
    rfl

/-- C1 witness: the amended theorem applied to the IN-list scenario
status in (active, pending), with the compiled output evaluated. -/
theorem C1_literal_params_amended_witness :
    funcFreeL (EL [Expr.ref ["status"], Expr.op ("in"),
        Expr.list (EL [Expr.val (Value.vstr ("active")), Expr.val (Value.vstr ("pending"))])]) = true
  ∧ ((translateFilter (EL [Expr.ref ["status"], Expr.op ("in"),
        Expr.list (EL [Expr.val (Value.vstr ("active")), Expr.val (Value.vstr ("pending"))])]) []).2
      = [] ++ litParamsL (EL [Expr.ref ["status"], Expr.op ("in"),
        Expr.list (EL [Expr.val (Value.vstr ("active")), Expr.val (Value.vstr ("pending"))])])
    ∧ countC ('?') ((translateFilter (EL [Expr.ref ["status"], Expr.op ("in"),
        Expr.list (EL [Expr.val (Value.vstr ("active")), Expr.val (Value.vstr ("pending"))])]) []).1)
      = (litParamsL (EL [Expr.ref ["status"], Expr.op ("in"),
        Expr.list (EL [Expr.val (Value.vstr ("active")), Expr.val (Value.vstr ("pending"))])])).length)
  ∧ (translateFilter (EL [Expr.ref ["status"], Expr.op ("in"),
        Expr.list (EL [Expr.val (Value.vstr ("active")), Expr.val (Value.vstr ("pending"))])]) []).1
      = "\"status\" IN (?, ?)" := by
  refine ⟨by decide, (C1_literal_params_amended _ [] (by decide) (by decide)).1, ?_⟩
  simp only [translateFilter, translateExpression, EL, tParts_cons, tParts_nil,
    tElem_ref, tElem_op, tElem_list, tItems_cons_val, tItems_nil]
  rfl

/-! Theorems for the result reshaper. -/

theorem rowGet_cons (k0 : String) (v0 : Value) (rest : Row) (k : String) :
    rowGet ((k0, v0) :: rest) k = if k0 = k then some v0 else rowGet rest k := by
  by_cases h : k0 = k <;> simp [rowGet, h]

theorem rowSet_cons (k0 : String) (v0 : Value) (rest : Row) (k : String) (v : Value) :
    rowSet ((k0, v0) :: rest) k v
      = if k0 = k then (k0, v) :: rest else (k0, v0) :: rowSet rest k v := rfl

theorem rowGet_rowSet_same (r : Row) (k : String) (v : Value) :
    rowGet (rowSet r k v) k = some v := by
  induction r with
  | nil => simp [rowSet, rowGet]
  | cons kv rest ih =>
      obtain ⟨k0, v0⟩ := kv
      rw [rowSet_cons]
      by_cases h : k0 = k
      · rw [if_pos h, rowGet_cons, if_pos h]
      · rw [if_neg h, rowGet_cons, if_neg h]
        exact ih

theorem rowGet_rowSet_other (r : Row) (k k2 : String) (v : Value) (h : ¬ k2 = k) :
    rowGet (rowSet r k v) k2 = rowGet r k2 := by
  induction r with
  | nil =>
      simp [rowSet, rowGet]
      intro he
      exact absurd he.symm h
  | cons kv rest ih =>
      obtain ⟨k0, v0⟩ := kv
      rw [rowSet_cons]
      by_cases hk : k0 = k
      · rw [if_pos hk, rowGet_cons, rowGet_cons]
        have : ¬ k0 = k2 := by
          rw [hk]
          intro he
          exact h he.symm
        rw [if_neg this, if_neg this]
      · rw [if_neg hk, rowGet_cons, rowGet_cons]
        by_cases hk2 : k0 = k2
        · rw [if_pos hk2, if_pos hk2]
        · rw [if_neg hk2, if_neg hk2]
          exact ih

theorem rowGet_eq_none_iff (r : Row) (k : String) :
    rowGet r k = none ↔ k ∉ r.map Prod.fst := by
  induction r with
  | nil => simp [rowGet]
  | cons kv rest ih =>
      obtain ⟨k0, v0⟩ := kv
      rw [rowGet_cons]
      by_cases h : k0 = k
      · simp [h]
      · simp only [if_neg h, List.map_cons, List.mem_cons]
        rw [ih]
        constructor
        · intro hn hc
          rcases hc with hc | hc
          · exact h hc.symm
          · exact hn hc
        · intro hn
          exact fun hc => hn (Or.inr hc)

theorem rowSet_append_fresh (r : Row) (k : String) (v : Value) (h : rowGet r k = none) :
    rowSet r k v = r ++ [(k, v)] := by
  induction r with
  | nil => simp [rowSet]
  | cons kv rest ih =>
      obtain ⟨k0, v0⟩ := kv
      rw [rowGet_cons] at h
      by_cases hk : k0 = k
      · rw [if_pos hk] at h
        exact absurd h (by simp)
      · rw [if_neg hk] at h
        rw [rowSet_cons, if_neg hk, ih h]
        simp

theorem mem_rowSet_names (r : Row) (k x : String) (v : Value)
    (h : x ∈ (rowSet r k v).map Prod.fst) : x ∈ r.map Prod.fst ∨ x = k := by
  induction r with
  | nil =>
      right
      simpa [rowSet] using h
  | cons kv rest ih =>
      obtain ⟨k0, v0⟩ := kv
      rw [rowSet_cons] at h
      by_cases hk : k0 = k
      · rw [if_pos hk] at h
        simp at h
        rcases h with h | h
        · left; simp [h]
        · left; simp [h]
      · rw [if_neg hk] at h
        simp at h
        rcases h with h | h
        · left; simp [h]
        · rcases ih (by simpa using h) with h2 | h2
          · left; simp [h2]
          · right; exact h2

theorem charsStart_iff : ∀ h p : List Char, charsStart h p = true ↔ p <+: h
  | h, [] => by simp [charsStart]
  | [], p :: ps => by
      simp only [charsStart, Bool.false_eq_true, false_iff]
      intro hpre
      have := hpre.length_le
      simp at this
  | c :: cs, p :: ps => by
      simp only [charsStart, Bool.and_eq_true, decide_eq_true_eq, charsStart_iff cs ps,
        List.cons_prefix_cons]
      constructor
      · rintro ⟨h1, h2⟩
        exact ⟨h1.symm, h2⟩
      · rintro ⟨h1, h2⟩
        exact ⟨h1.symm, h2⟩

theorem strStarts_data (k p : String) (h : strStarts k p = true) :
    k.data = p.data ++ k.data.drop p.length := by
  have hpre := (charsStart_iff k.data p.data).mp h
  rcases hpre with ⟨t, ht⟩
  have hdrop : k.data.drop p.length = t := by
    rw [← ht]
    have : p.length = p.data.length := rfl
    rw [this, List.drop_left]
  rw [hdrop, ht]

theorem strStarts_fieldName_inj (pre k k2 : String)
    (h1 : strStarts k pre = true) (h2 : strStarts k2 pre = true)
    (he : k.data.drop pre.length = k2.data.drop pre.length) : k = k2 := by
  have d1 := strStarts_data k pre h1
  have d2 := strStarts_data k2 pre h2
  apply String.ext
  rw [d1, d2, he]

theorem strStarts_ne_base (A k : String) (h : strStarts k (A ++ "_") = true) : ¬ k = A := by
  intro he
  have hpre := (charsStart_iff k.data (A ++ "_").data).mp h
  have hl := hpre.length_le
  rw [String.data_append, he] at hl
  simp at hl

theorem data_underscore_starts (A : String) :
    strStarts (A ++ "_data") (A ++ "_") = true := by
  rw [strStarts, charsStart_iff]
  refine ⟨['d', 'a', 't', 'a'], ?_⟩
  rw [String.data_append, String.data_append]
  simp

/-- The leaf fields a single expansion collects from a flat row: each
field whose key starts with the association prefix, stripped of the
prefix, in row order. -/
def collectedFrom (A : String) (row : Row) : List (String × Value) :=
  row.filterMap (fun kv =>
    if strStarts kv.1 (A ++ "_") then some (strDropChars kv.1 (A.length + 1), kv.2) else none)

/-- The expanded-data accumulator of a single-expansion split: empty, or
one nested object under the association name. -/
def ePack (A : String) : Option (List (String × Value)) → List (String × Value)
  | none => []
  | some fs => [(A, Value.vobj fs)]

/-- Combine an accumulator state with further collected fields. -/
def optCombine : Option (List (String × Value)) → List (String × Value) → Option (List (String × Value))
  | none, [] => none
  | none, c => some c
  | some fs, c => some (fs ++ c)

theorem findMatchingAssoc_single (A : String) (m : ExpandMeta) (k : String) :
    findMatchingAssoc [(A, m)] k
      = if strStarts k (A ++ "_") then some (A, true) else none := by
  by_cases hs : strStarts k (A ++ "_") = true
  · simp [findMatchingAssoc, hs]
  · have hd : ¬ k = A ++ "_data" := by
      intro he
      rw [he] at hs
      exact hs (data_underscore_starts A)
    simp [findMatchingAssoc, hs, hd]

theorem ePack_get (A : String) (ofs : Option (List (String × Value))) :
    rowGet (ePack A ofs) A = ofs.map Value.vobj := by
  cases ofs with
  | none => simp [ePack, rowGet]
  | some fs => simp [ePack, rowGet]

theorem ePack_set (A : String) (ofs : Option (List (String × Value))) (nd : Value) :
    rowSet (ePack A ofs) A nd = [(A, nd)] := by
  cases ofs with
  | none => simp [ePack, rowSet]
  | some fs => simp [ePack, rowSet]

theorem collectedFrom_cons_match (A k : String) (v : Value) (rest : Row)
    (hs : strStarts k (A ++ "_") = true) :
    collectedFrom A ((k, v) :: rest)
      = (strDropChars k (A.length + 1), v) :: collectedFrom A rest := by
  simp [collectedFrom, hs]

theorem collectedFrom_cons_other (A k : String) (v : Value) (rest : Row)
    (hs : ¬ strStarts k (A ++ "_") = true) :
    collectedFrom A ((k, v) :: rest) = collectedFrom A rest := by
  simp [collectedFrom, hs]

theorem csplit_expdata (A : String) (m : ExpandMeta) :
    ∀ (row r0 : Row) (ofs : Option (List (String × Value))),
      ((((ofs.getD []).map Prod.fst) ++ ((collectedFrom A row).map Prod.fst)).Nodup) →
      (collectSplit [(A, m)] row r0 (ePack A ofs)).2
        = ePack A (optCombine ofs (collectedFrom A row))
  | [], r0, ofs, hH => by
      cases ofs with
      | none => simp [collectSplit, collectedFrom, optCombine]
      | some fs => simp [collectSplit, collectedFrom, optCombine, ePack]
  | (k, v) :: rest, r0, ofs, hH => by
      by_cases hs : strStarts k (A ++ "_") = true
      · have hcf := collectedFrom_cons_match A k v rest hs
        rw [hcf] at hH
        have hfresh : (strDropChars k (A.length + 1)) ∉ (ofs.getD []).map Prod.fst := by
          have hnd := List.nodup_append.mp (by simpa using hH)
          intro hmem
          exact (hnd.2.2 hmem) (by simp)
        have hget : rowGet (ofs.getD []) (strDropChars k (A.length + 1)) = none :=
          (rowGet_eq_none_iff _ _).mpr hfresh
        have hstep : (collectSplit [(A, m)] ((k, v) :: rest) r0 (ePack A ofs)).2
            = (collectSplit [(A, m)] rest r0
                (rowSet (ePack A ofs) A
                  (Value.vobj (rowSet (ofs.getD []) (strDropChars k (A.length + 1)) v)))).2 := by
          rw [collectSplit]
          rw [findMatchingAssoc_single, if_pos hs]
          simp only [ePack_get]
          cases ofs with
          | none => rfl
          | some fs => rfl
        rw [hstep, ePack_set, rowSet_append_fresh _ _ _ hget]
        have hrec := csplit_expdata A m rest r0 (some ((ofs.getD []) ++ [(strDropChars k (A.length + 1), v)]))
        have hH2 : ((((ofs.getD []) ++ [(strDropChars k (A.length + 1), v)]).map Prod.fst)
            ++ ((collectedFrom A rest).map Prod.fst)).Nodup := by
          simp only [List.map_append, List.map_cons, List.map_nil, List.append_assoc,
            List.singleton_append]
          simpa using hH
        have := hrec hH2
        rw [show ePack A (some ((ofs.getD []) ++ [(strDropChars k (A.length + 1), v)]))
            = rowSet (ePack A ofs) A (Value.vobj ((ofs.getD []) ++ [(strDropChars k (A.length + 1), v)])) from by
          rw [ePack_set]
          rfl] at this
        rw [ePack_set] at this
        rw [this]
        cases ofs with
        | none =>
            rcases hrest : collectedFrom A rest with _ | ⟨c0, crest⟩ <;>
              simp [optCombine, hrest, hcf]
        | some fs =>
            rcases hrest : collectedFrom A rest with _ | ⟨c0, crest⟩ <;>
              simp [optCombine, hrest, hcf]
      · have hcf := collectedFrom_cons_other A k v rest hs
        rw [hcf] at hH ⊢
        have hstep : (collectSplit [(A, m)] ((k, v) :: rest) r0 (ePack A ofs)).2
            = (collectSplit [(A, m)] rest (rowSet r0 k v) (ePack A ofs)).2 := by
          rw [collectSplit]
          rw [findMatchingAssoc_single, if_neg hs]
        rw [hstep]
        exact csplit_expdata A m rest (rowSet r0 k v) ofs hH

theorem csplit_base_get (exps : List (String × ExpandMeta)) (k : String)
    (hk : findMatchingAssoc exps k = none) :
    ∀ (row r0 : Row) (e0 : List (String × Value)),
      (row.map Prod.fst).count k ≤ 1 →
      rowGet (collectSplit exps row r0 e0).1 k
        = (match rowGet row k with
           | some v => some v
           | none => rowGet r0 k)
  | [], r0, e0, _ => by simp [collectSplit, rowGet]
  | (k0, v0) :: rest, r0, e0, hcount => by
      by_cases hk0 : k0 = k
      · subst hk0
        have hnone : rowGet rest k0 = none := by
          rw [rowGet_eq_none_iff]
          intro hmem
          have hpos : 0 < (rest.map Prod.fst).count k0 := List.count_pos_iff.mpr hmem
          simp only [List.map_cons, List.count_cons_self] at hcount
          omega
        rw [collectSplit, hk]
        have hrec := csplit_base_get exps k0 hk rest (rowSet r0 k0 v0) e0
          (by simp only [List.map_cons, List.count_cons_self] at hcount; omega)
        rw [hrec, hnone, rowGet_cons, if_pos rfl]
        simp [rowGet_rowSet_same]
      · have hcount2 : (rest.map Prod.fst).count k ≤ 1 := by
          simp only [List.map_cons, List.count_cons] at hcount
          omega
        cases hmA : findMatchingAssoc exps k0 with
        | some pair =>
            rw [collectSplit, hmA]
            cases pair with
            | mk a isPre =>
              cases isPre with
              | true =>
                  simp only []
                  rw [csplit_base_get exps k hk rest r0 _ hcount2, rowGet_cons, if_neg hk0]
              | false =>
                  simp only []
                  rw [csplit_base_get exps k hk rest r0 _ hcount2, rowGet_cons, if_neg hk0]
        | none =>
            rw [collectSplit, hmA]
            rw [csplit_base_get exps k hk rest (rowSet r0 k0 v0) e0 hcount2,
              rowGet_cons, if_neg hk0]
            have hother : rowGet (rowSet r0 k0 v0) k = rowGet r0 k :=
              rowGet_rowSet_other r0 k0 k v0 (fun he => hk0 he.symm)
            cases hrow : rowGet rest k <;> simp [hother]

theorem csplit_base_matched_none (exps : List (String × ExpandMeta)) (k : String)
    (hk : ¬ findMatchingAssoc exps k = none) :
    ∀ (row r0 : Row) (e0 : List (String × Value)),
      rowGet r0 k = none →
      rowGet (collectSplit exps row r0 e0).1 k = none
  | [], r0, e0, h0 => by simpa [collectSplit] using h0
  | (k0, v0) :: rest, r0, e0, h0 => by
      cases hmA : findMatchingAssoc exps k0 with
      | some pair =>
          rw [collectSplit, hmA]
          cases pair with
          | mk a isPre =>
            cases isPre with
            | true => exact csplit_base_matched_none exps k hk rest r0 _ h0
            | false => exact csplit_base_matched_none exps k hk rest r0 _ h0
      | none =>
          rw [collectSplit, hmA]
          have hk0 : ¬ k0 = k := by
            intro he
            rw [he] at hmA
            exact hk hmA
          have h0b : rowGet (rowSet r0 k0 v0) k = none := by
            rw [rowGet_rowSet_other r0 k0 k v0 (fun he => hk0 he.symm)]
            exact h0
          exact csplit_base_matched_none exps k hk rest (rowSet r0 k0 v0) e0 h0b

theorem csplit_expnames (exps : List (String × ExpandMeta)) :
    ∀ (row r0 : Row) (e0 : List (String × Value)) (x : String),
      x ∈ (collectSplit exps row r0 e0).2.map Prod.fst →
      x ∈ e0.map Prod.fst ∨
        ∃ kv ∈ row, ∃ b, findMatchingAssoc exps kv.1 = some b ∧ b.1 = x
  | [], r0, e0, x, hx => by
      left
      simpa [collectSplit] using hx
  | (k0, v0) :: rest, r0, e0, x, hx => by
      cases hmA : findMatchingAssoc exps k0 with
      | some pair =>
          rw [collectSplit, hmA] at hx
          cases pair with
          | mk a isPre =>
            cases isPre with
            | true =>
                simp only [] at hx
                rcases csplit_expnames exps rest r0 _ x hx with h | ⟨kv, hkv, b, hb, hbx⟩
                · rcases mem_rowSet_names _ _ _ _ h with h2 | h2
                  · left; exact h2
                  · right
                    exact ⟨(k0, v0), by simp, (a, true), hmA, by simp [h2]⟩
                · right
                  exact ⟨kv, by simp [hkv], b, hb, hbx⟩
            | false =>
                simp only [] at hx
                rcases csplit_expnames exps rest r0 _ x hx with h | ⟨kv, hkv, b, hb, hbx⟩
                · rcases mem_rowSet_names _ _ _ _ h with h2 | h2
                  · left; exact h2
                  · right
                    exact ⟨(k0, v0), by simp, (a, false), hmA, by simp [h2]⟩
                · right
                  exact ⟨kv, by simp [hkv], b, hb, hbx⟩
      | none =>
          rw [collectSplit, hmA] at hx
          rcases csplit_expnames exps rest (rowSet r0 k0 v0) e0 x hx with h | ⟨kv, hkv, b, hb, hbx⟩
          · left; exact h
          · right
            exact ⟨kv, by simp [hkv], b, hb, hbx⟩

theorem attach_get_preserved (exps : List (String × ExpandMeta)) (k : String) :
    ∀ (edata : List (String × Value)) (res : Row),
      (∀ x ∈ edata.map Prod.fst, ¬ k = x) →
      rowGet (attachExpanded exps res edata) k = rowGet res k
  | [], res, _ => by simp [attachExpanded]
  | (a, data) :: rest, res, hdj => by
      rw [attachExpanded]
      rw [attach_get_preserved exps k rest _ (fun x hx => hdj x (by simp [hx]))]
      exact rowGet_rowSet_other res a k _ (hdj a (by simp))

theorem bnot_matches_null (x : Value) :
    (!(x matches Value.vnull)) = true ↔ ¬ x = Value.vnull := by
  cases x <;> simp

theorem any_vals_not_null (fs : List (String × Value)) :
    ((fs.map (fun kv => kv.2)).any (fun x => !(x matches Value.vnull)) = true)
      ↔ ∃ kv ∈ fs, ¬ kv.2 = Value.vnull := by
  rw [List.any_eq_true]
  constructor
  · rintro ⟨x, hx, hp⟩
    rcases List.mem_map.mp hx with ⟨kv, hkv, hxe⟩
    exact ⟨kv, hkv, (bnot_matches_null kv.2).mp (by rw [hxe]; exact hp)⟩
  · rintro ⟨kv, hkv, hp⟩
    exact ⟨kv.2, List.mem_map.mpr ⟨kv, hkv, rfl⟩, (bnot_matches_null kv.2).mpr hp⟩

theorem attachVal_to_one (A : String) (m : ExpandMeta) (hm : m.etype = "to-one")
    (fields : List (String × Value)) :
    attachVal [(A, m)] A (Value.vobj fields)
      = (if (fields.map (fun kv => kv.2)).any (fun x => !(x matches Value.vnull)) = true
         then Value.vobj fields else Value.vnull) := by
  cases hany : (fields.map (fun kv => kv.2)).any (fun x => !(x matches Value.vnull)) with
  | true => simp [attachVal, hm, objValues, hany]
  | false => simp [attachVal, hm, objValues, hany]

/-- C5.  Round-trip of a single to-one expansion through the result
reshaper: on a flat row whose collected prefixed values are all null the
association is installed as null (not an object of nulls); when some
collected value is non-null the association is installed as the nested
object of exactly the collected leaf fields; in both cases every flat
prefixed field is absent from the reshaped row. -/
theorem C5_to_one_roundtrip (A : String) (m : ExpandMeta) (row : Row)
    (hm : m.etype = "to-one")
    (hnd : ((collectedFrom A row).map Prod.fst).Nodup) :
    ((¬ collectedFrom A row = [] ∧ ∀ kv ∈ collectedFrom A row, kv.2 = Value.vnull) →
        rowGet (restructureRow [(A, m)] row) A = some Value.vnull) ∧
    ((∃ kv ∈ collectedFrom A row, ¬ kv.2 = Value.vnull) →
        rowGet (restructureRow [(A, m)] row) A
          = some (Value.vobj (collectedFrom A row))) ∧
    (∀ k, strStarts k (A ++ "_") = true →
        rowGet (restructureRow [(A, m)] row) k = none) := by
  have hsplit : (collectSplit [(A, m)] row [] []).2
      = ePack A (optCombine none (collectedFrom A row)) :=
    csplit_expdata A m row [] none (by simpa using hnd)
  have hbase : ∀ k, strStarts k (A ++ "_") = true →
      rowGet (collectSplit [(A, m)] row [] []).1 k = none := by
    intro k hs
    apply csplit_base_matched_none [(A, m)] k
    · rw [findMatchingAssoc_single A m k, if_pos hs]
      exact fun hcn => Option.noConfusion hcn
    · rfl
  rcases hc : collectedFrom A row with _ | ⟨c0, cs⟩
  · rw [hc] at hsplit
    have hout : restructureRow [(A, m)] row = (collectSplit [(A, m)] row [] []).1 := by
      show attachExpanded [(A, m)] (collectSplit [(A, m)] row [] []).1
          (collectSplit [(A, m)] row [] []).2 = _
      rw [hsplit]
      rfl
    refine ⟨?_, ?_, ?_⟩
    · rintro ⟨hne, -⟩
      exact absurd rfl hne
    · rintro ⟨kv, hkv, -⟩
      simp at hkv
    · intro k hs
      rw [hout]
      exact hbase k hs
  · rw [hc] at hsplit
    have hout : restructureRow [(A, m)] row
        = rowSet (collectSplit [(A, m)] row [] []).1 A
            (attachVal [(A, m)] A (Value.vobj (c0 :: cs))) := by
      show attachExpanded [(A, m)] (collectSplit [(A, m)] row [] []).1
          (collectSplit [(A, m)] row [] []).2 = _
      rw [hsplit]
      rfl
    have hval := attachVal_to_one A m hm (c0 :: cs)
    refine ⟨?_, ?_, ?_⟩
    · rintro ⟨-, hall⟩
      have hfalse : ¬ ((c0 :: cs).map (fun kv => kv.2)).any
          (fun x => !(x matches Value.vnull)) = true := by
        rw [any_vals_not_null]
        rintro ⟨kv, hkv, hne⟩
        exact hne (hall kv hkv)
      rw [hout, hval, if_neg hfalse, rowGet_rowSet_same]
    · intro hex
      have htrue := (any_vals_not_null (c0 :: cs)).mpr hex
      rw [hout, hval, if_pos htrue, rowGet_rowSet_same]
    · intro k hs
      rw [hout, rowGet_rowSet_other _ _ _ _ (strStarts_ne_base A k hs)]
      exact hbase k hs

/-- C5 witness: the theorem applied to the row (title X, author_name Y)
with the to-one expansion author: the association becomes the nested
object and the flat prefixed field is gone. -/
theorem C5_to_one_roundtrip_witness :
    rowGet (restructureRow [("author", (⟨"to-one", ["name"]⟩ : ExpandMeta))]
        [("title", Value.vstr "X"), ("author_name", Value.vstr "Y")]) "author"
      = some (Value.vobj [("name", Value.vstr "Y")]) ∧
    rowGet (restructureRow [("author", (⟨"to-one", ["name"]⟩ : ExpandMeta))]
        [("title", Value.vstr "X"), ("author_name", Value.vstr "Y")]) "author_name"
      = none := by
  have h := C5_to_one_roundtrip "author" ⟨"to-one", ["name"]⟩
      [("title", Value.vstr "X"), ("author_name", Value.vstr "Y")] rfl (by decide)
  refine ⟨?_, h.2.2 "author_name" (by decide)⟩
  have hcol : collectedFrom "author"
      [("title", Value.vstr "X"), ("author_name", Value.vstr "Y")]
      = [("name", Value.vstr "Y")] := rfl
  rw [h.2.1 ⟨("name", Value.vstr "Y"), by rw [hcol]; simp,
    fun hcn => Value.noConfusion hcn⟩, hcol]

/-- C10 counterexample.  A base field whose key equals an expansion's
association name is not left unchanged even though it does not start
with the alias prefix: the attach phase overwrites it with the nested
expansion object. -/
theorem C10_frame_counterexample :
    rowGet (restructureRow [("author", (⟨"to-one", ["name"]⟩ : ExpandMeta))]
        [("author", Value.vstr "x"), ("author_name", Value.vstr "Y")]) "author"
      = some (Value.vobj [("name", Value.vstr "Y")]) ∧
    ¬ rowGet (restructureRow [("author", (⟨"to-one", ["name"]⟩ : ExpandMeta))]
        [("author", Value.vstr "x"), ("author_name", Value.vstr "Y")]) "author"
      = rowGet [("author", Value.vstr "x"), ("author_name", Value.vstr "Y")] "author" := by
  have h1 : rowGet (restructureRow [("author", (⟨"to-one", ["name"]⟩ : ExpandMeta))]
      [("author", Value.vstr "x"), ("author_name", Value.vstr "Y")]) "author"
      = some (Value.vobj [("name", Value.vstr "Y")]) := rfl
  have h2 : rowGet [("author", Value.vstr "x"), ("author_name", Value.vstr "Y")] "author"
      = some (Value.vstr "x") := rfl
  refine ⟨h1, fun hcn => ?_⟩
  rw [h1, h2] at hcn
  injection hcn with h3
  exact Value.noConfusion h3

/-- C10 amended.  The reshaper leaves a field unchanged when its key
matches no expansion's alias prefix or data marker, occurs at most once
in the row, and is not the association name of any field the plan does
re-nest; keys equal to an association name that collected data are
overwritten by the attach phase, so the unrestricted frame claim fails. -/
theorem C10_frame_amended (exps : List (String × ExpandMeta)) (row : Row) (k : String)
    (hk : findMatchingAssoc exps k = none)
    (hcount : (row.map Prod.fst).count k ≤ 1)
    (hA : ∀ kv ∈ row, ∀ b, findMatchingAssoc exps kv.1 = some b → ¬ k = b.1) :
    rowGet (restructureRow exps row) k = rowGet row k := by
  have hbase := csplit_base_get exps k hk row [] [] hcount
  have hdj : ∀ x ∈ ((collectSplit exps row [] []).2).map Prod.fst, ¬ k = x := by
    intro x hx
    rcases csplit_expnames exps row [] [] x hx with h | ⟨kv, hkv, b, hb, hbx⟩
    · simp at h
    · rw [← hbx]
      exact hA kv hkv b hb
  have hatt := attach_get_preserved exps k ((collectSplit exps row [] []).2)
      ((collectSplit exps row [] []).1) hdj
  show rowGet (attachExpanded exps (collectSplit exps row [] []).1
      (collectSplit exps row [] []).2) k = rowGet row k
  rw [hatt, hbase]
  cases h : rowGet row k <;> simp [rowGet]

/-- C10 witness: the amended theorem applied to the base field title of
the expanded row, which passes through reshaping unchanged. -/
theorem C10_frame_amended_witness :
    rowGet (restructureRow [("author", (⟨"to-one", ["name"]⟩ : ExpandMeta))]
        [("title", Value.vstr "X"), ("author_name", Value.vstr "Y")]) "title"
      = rowGet [("title", Value.vstr "X"), ("author_name", Value.vstr "Y")] "title" :=
  C10_frame_amended [("author", ⟨"to-one", ["name"]⟩)]
    [("title", Value.vstr "X"), ("author_name", Value.vstr "Y")] "title"
    rfl (by decide)
    (by
      intro kv hkv b hb
      rcases List.mem_cons.mp hkv with h | h
      · subst h
        exact Option.noConfusion
          ((show findMatchingAssoc [("author", (⟨"to-one", ["name"]⟩ : ExpandMeta))]
              ("title", Value.vstr "X").1 = none from rfl).symm.trans hb)
      · have h2 := List.mem_singleton.mp h
        subst h2
        have hb2 := (show findMatchingAssoc [("author", (⟨"to-one", ["name"]⟩ : ExpandMeta))]
            ("author_name", Value.vstr "Y").1 = some ("author", true) from rfl).symm.trans hb
        injection hb2 with h3
        rw [← h3]
        decide)

end CapSnowflake
